import Mathlib

/-!
Verification of the poll bot's core logic.

This file gives a shallow embedding of the voting, aggregation, rendering,
propagation, draft-persistence and modal-extraction logic of the repository
(`interactions/block_actions.py`, `interactions/view_submission.py`,
`interactions/poll_helpers.py`, `view_loader.py`) and proves the spec's
claims about it.

Modelling conventions:
* Mongo ObjectIds are modelled as natural numbers; user ids, channel ids and
  message timestamps as strings.
* A Mongo collection is a list of documents; `find_one` returns the first
  match in the list, `update_one` updates the first matching document.
* `$pull` with an equality condition removes every matching array element;
  `$push` appends; `$addToSet` appends only when the element is absent; the
  positional operator `$` addresses the first array element matched by the
  query filter, and an update whose filter matches no document is a no-op.
* Python dict view-state payloads are modelled as association lists of
  block-id/block-data pairs; Python string comparison (used by `sorted`)
  is code-point lexicographic comparison on the character lists.
-/

namespace PollSlack

/-- One selectable option of a poll (an element of the document's `choices`
array): `_id` (ObjectId), `text`, `voters` (array of user ids). -/
structure Choice where
  id : Nat
  text : String
  voters : List String
  deriving DecidableEq, Repr

/-- A posted rendering of the poll (an element of the document's `messages`
array): `channel`, `ts`, `permalink`.  The source reads `channel` and `ts`
with `dict.get`, which yields `None` when absent, so both are optional. -/
structure MessageRef where
  channel : Option String
  ts : Option String
  permalink : String
  deriving DecidableEq, Repr

/-- A poll document as inserted by `_handle_submit_poll`. -/
structure Poll where
  id : Nat
  question : String
  choices : List Choice
  creator_id : String
  allow_multiple_votes : Bool
  allow_others_to_add_options : Bool
  messages : List MessageRef
  channels : List String
  deriving DecidableEq, Repr

/-! ### Vote mutator (`_handle_vote` in `interactions/block_actions.py`) -/

/-- `$pull` of `u` from one choice's `voters` array: every occurrence of the
matching value is removed. -/
def Choice.pullVoter (c : Choice) (u : String) : Choice :=
  { c with voters := c.voters.filter (fun v => v ≠ u) }

/-- `update_one({"_id": pid}, {"$pull": {"choices.$[].voters": user_id}})`:
the all-positional operator `$[]` pulls `u` from every choice. -/
def Poll.pullAllVoters (p : Poll) (u : String) : Poll :=
  { p with choices := p.choices.map (fun c => c.pullVoter u) }

/-- Mongo `update_one` first-match semantics over a list: the first element
satisfying `pred` is transformed by `f`; when none matches, nothing happens. -/
def updateFirstBy (pred : α → Bool) (f : α → α) : List α → List α
  | [] => []
  | x :: rest => if pred x then f x :: rest else x :: updateFirstBy pred f rest

/-- An update filtered by `{"_id": pid, "choices._id": cid}` together with the
positional operator `choices.$`: when some choice has id `cid`, the update
applies to the first such choice; otherwise the filter matches no document
and nothing happens. -/
def updateFirstChoice (cs : List Choice) (cid : Nat) (f : Choice → Choice) : List Choice :=
  updateFirstBy (fun c => decide (c.id = cid)) f cs

/-- `{"$push": {"choices.$.voters": user_id}}`. -/
def Poll.pushVoter (p : Poll) (cid : Nat) (u : String) : Poll :=
  { p with choices :=
      updateFirstChoice p.choices cid (fun c => { c with voters := c.voters ++ [u] }) }

/-- `{"$addToSet": {"choices.$.voters": user_id}}`. -/
def Poll.addToSetVoter (p : Poll) (cid : Nat) (u : String) : Poll :=
  { p with choices :=
      (updateFirstChoice p.choices cid
        (fun c => if u ∈ c.voters then c else { c with voters := c.voters ++ [u] })) }

/-- `{"$pull": {"choices.$.voters": user_id}}`. -/
def Poll.pullVoterFromChoice (p : Poll) (cid : Nat) (u : String) : Poll :=
  { p with choices := updateFirstChoice p.choices cid (fun c => c.pullVoter u) }

/-- `polls.find_one({"_id": ..., "choices": {"$elemMatch": {"_id": cid, "voters": u}}})`
is a document exactly when some choice has id `cid` and `u` among its voters. -/
def Poll.alreadyVoted (p : Poll) (cid : Nat) (u : String) : Bool :=
  p.choices.any (fun c => decide (c.id = cid ∧ u ∈ c.voters))

/-- The voter-set mutation performed by `_handle_vote` once the poll document
has been located: `already_voted` is computed first, then in single-vote mode
the user is pulled from every choice and, when not already a voter of the
selected choice, pushed onto it; in multi-vote mode the selected choice alone
is toggled (`$pull` when present, `$addToSet` when absent). -/
def toggleVote (p : Poll) (cid : Nat) (u : String) : Poll :=
  if !p.allow_multiple_votes then
    if !(p.alreadyVoted cid u) then (p.pullAllVoters u).pushVoter cid u
    else p.pullAllVoters u
  else
    if p.alreadyVoted cid u then p.pullVoterFromChoice cid u
    else p.addToSetVoter cid u

/-- The `$elemMatch` query on `messages` used by `_handle_vote` to locate the
poll from the clicked message's channel and timestamp. -/
def Poll.messageMatches (p : Poll) (channel ts : String) : Bool :=
  p.messages.any (fun m => decide (m.ts = some ts ∧ m.channel = some channel))

/-- `update_one({"_id": pid}, ...)` at collection level: the first document
with this id is transformed. -/
def updateById (db : List Poll) (pid : Nat) (f : Poll → Poll) : List Poll :=
  updateFirstBy (fun p => decide (p.id = pid)) f db

/-- `_handle_vote` at collection level: find the poll from the message
context; if none is found, answer HTTP 404 and touch nothing; otherwise apply
the toggle updates to the document with that id and answer HTTP 200. -/
def handle_vote (db : List Poll) (channel ts : String) (cid : Nat) (u : String) :
    List Poll × Nat :=
  match db.find? (fun p => p.messageMatches channel ts) with
  | none => (db, 404)
  | some p => (updateById db p.id (fun q => toggleVote q cid u), 200)

/-- Number of choices of `p` currently listing `u` as a voter. -/
def votedChoiceCount (p : Poll) (u : String) : Nat :=
  (p.choices.filter (fun c => decide (u ∈ c.voters))).length

/-- The single-vote data-model invariant: every user appears in at most one
choice's voter set. -/
def SingleVoteExclusive (p : Poll) : Prop :=
  ∀ u, votedChoiceCount p u ≤ 1

/-! ### Vote aggregator and message renderer (`interactions/poll_helpers.py`) -/

/-- The ten numbered marker emojis of `EMOJI_LIST`. -/
def EMOJI_LIST : List String :=
  ["1️⃣", "2️⃣", "3️⃣", "4️⃣", "5️⃣", "6️⃣", "7️⃣", "8️⃣", "9️⃣", "🔟"]

/-- `EMOJI_LIST[i] if i < len(EMOJI_LIST) else "🔘"`. -/
def emojiFor (i : Nat) : String :=
  if h : i < EMOJI_LIST.length then EMOJI_LIST.get ⟨i, h⟩ else "🔘"

/-- `sum(len(choice.get("voters", [])) for choice in poll.get("choices", []))`. -/
def totalIndividualVotesCast (p : Poll) : Nat :=
  (p.choices.map (fun c => c.voters.length)).sum

/-- The Python set comprehension
`set of voter for choice in choices for voter in choice's voters`;
only its cardinality is consumed, so it is modelled as a deduplicated list. -/
def uniqueVoters (p : Poll) : List String :=
  (p.choices.flatMap (fun c => c.voters)).dedup

/-- `total_respondents = len(unique_voters)`. -/
def totalRespondents (p : Poll) : Nat :=
  (uniqueVoters p).length

/-- Round-half-to-even of the fraction `n / d` (`d` positive): the rounding
applied by Python's `.0f` string formatting. -/
def roundHalfEvenFrac (n d : Nat) : Nat :=
  if 2 * (n % d) < d then n / d
  else if d < 2 * (n % d) then n / d + 1
  else if (n / d) % 2 = 0 then n / d else n / d + 1

/-- `(vote_count / percentage_base * 100) if percentage_base > 0 else 0`,
then formatted with `.0f` for display.  The source computes
`count / base * 100` in floating point and formats it round-half-to-even;
this is modelled as exact half-to-even rounding of the fraction
`count * 100 / base`. -/
def displayPercentage (count base : Nat) : Nat :=
  if 0 < base then roundHalfEvenFrac (count * 100) base else 0

/-- The data content of one per-choice section block built by
`build_poll_blocks`: marker emoji, choice text, vote count, formatted
percentage, voter mentions, and the vote button whose `value` is the
choice's stable id (`action_id` `vote_for_choice`). -/
structure ChoiceSection where
  emoji : String
  text : String
  voteCount : Nat
  percentage : Nat
  mentions : List String
  buttonValue : Nat
  deriving DecidableEq, Repr

/-- The structured content of the Slack blocks built by `build_poll_blocks`,
with layout-only JSON wrapping omitted. -/
inductive Block where
  | questionSection (question : String) (settingsValue : Nat)
  | multipleVotesNotice
  | choiceSection (s : ChoiceSection)
  | addOptionButton (pollId : Nat)
  | footer (totalVotes : Nat) (creatorId : String)
  deriving DecidableEq, Repr

/-- `build_poll_blocks(poll, total_votes, total_respondents)`: question
section with the settings overflow, the multiple-votes notice when enabled,
one section per choice (in order, even with zero voters), the add-option
button when enabled, and the footer. -/
def build_poll_blocks (p : Poll) (total_votes total_respondents : Nat) : List Block :=
  let blocks := [Block.questionSection p.question p.id]
  let blocks := if p.allow_multiple_votes then blocks ++ [Block.multipleVotesNotice] else blocks
  let percentage_base := if p.allow_multiple_votes then total_votes else total_respondents
  let blocks := blocks ++ p.choices.enum.map (fun it =>
    Block.choiceSection
      { emoji := emojiFor it.1
        text := it.2.text
        voteCount := it.2.voters.length
        percentage := displayPercentage it.2.voters.length percentage_base
        mentions := it.2.voters
        buttonValue := it.2.id })
  let blocks := if p.allow_others_to_add_options then blocks ++ [Block.addOptionButton p.id] else blocks
  blocks ++ [Block.footer total_votes p.creator_id]

/-- The choice section blocks of a rendering, in order. -/
def choiceSections (blocks : List Block) : List ChoiceSection :=
  blocks.filterMap (fun b =>
    match b with
    | Block.choiceSection s => some s
    | _ => none)

/-! ### Propagation coordinator (`update_all_poll_messages`) -/

/-- The argument record of one `chat.update` call issued by
`update_all_poll_messages`. -/
structure UpdateRequest where
  channel : String
  ts : String
  blocks : List Block
  text : String
  deriving DecidableEq, Repr

/-- Outcome of one awaited `client.post` call: a normal response
(the source never inspects the response, so HTTP error statuses and
`ok: false` bodies are indistinguishable from success here), or a raised
exception (connection errors and the like). -/
inductive PostOutcome where
  | ok
  | errorResponse
  | raised
  deriving DecidableEq, Repr

/-- The `for msg_info in poll.get("messages", [])` loop of
`update_all_poll_messages`: each entry with a truthy `channel` and `ts`
(present and non-empty) gets one `chat.update` call carrying the one
pre-built rendering; the loop body does not catch exceptions, so a raised
exception aborts the remaining iterations.  Returns the calls issued. -/
def runMessageUpdates (post : UpdateRequest → PostOutcome) (blocks : List Block)
    (text : String) : List MessageRef → List UpdateRequest
  | [] => []
  | m :: rest =>
    match m.channel, m.ts with
    | some ch, some t =>
      if ch ≠ "" ∧ t ≠ "" then
        let req : UpdateRequest := { channel := ch, ts := t, blocks := blocks, text := text }
        if post req = PostOutcome.raised then [req]
        else req :: runMessageUpdates post blocks text rest
      else runMessageUpdates post blocks text rest
    | _, _ => runMessageUpdates post blocks text rest

/-- `update_all_poll_messages(poll_id, client)`: look the poll up (absent:
log and return with no calls); otherwise recompute the two totals, build the
blocks once, and update every recorded message with that one rendering. -/
def update_all_poll_messages (db : List Poll) (pid : Nat)
    (post : UpdateRequest → PostOutcome) : List UpdateRequest :=
  match db.find? (fun p => decide (p.id = pid)) with
  | none => []
  | some p =>
    runMessageUpdates post
      (build_poll_blocks p (totalIndividualVotesCast p) (totalRespondents p))
      p.question p.messages

/-! ### Modal view state (`view["state"]["values"]`) -/

/-- One block's payload inside `view["state"]["values"]`, keyed by its single
action id: a plain-text input's (possibly null) `value`, a checkbox group's
`selected_options` values, or a conversations-select's
`selected_conversations`. -/
inductive BlockData where
  | textInput (actionId : String) (value : Option String)
  | checkboxes (actionId : String) (selectedValues : List String)
  | conversations (actionId : String) (selected : List String)
  deriving DecidableEq, Repr

/-- `view["state"]["values"]` as an association list (a Python dict whose
iteration order is its insertion order). -/
abbrev ViewState := List (String × BlockData)

/-- `block_data[next(iter(block_data))].get("value")`: the `value` field of
the block's single element. -/
def BlockData.value : BlockData → Option String
  | BlockData.textInput _ v => v
  | _ => none

/-- Python string `<`: code-point lexicographic comparison. -/
def strLtB : List Char → List Char → Bool
  | [], [] => false
  | [], _ :: _ => true
  | _ :: _, [] => false
  | a :: as, b :: bs => if a < b then true else if b < a then false else strLtB as bs

/-- Python string `<=`. -/
def strLeB (a b : List Char) : Bool := !strLtB b a

/-- The key order used by `sorted(state.items(), key=lambda item: item[0])`. -/
def keyLe (a b : String × BlockData) : Prop := strLeB a.1.data b.1.data = true

instance : DecidableRel keyLe := fun a b =>
  inferInstanceAs (Decidable (strLeB a.1.data b.1.data = true))

/-- `sorted(state.items(), key=lambda item: item[0])`: a stable ascending
sort of the dict items by Python string comparison of the keys. -/
def sortByKey (state : ViewState) : ViewState :=
  List.insertionSort keyLe state

/-- Python `s.startswith(pre)`. -/
def pyStartsWith (s pre : String) : Bool := pre.data.isPrefixOf s.data

/-- `_extract_choices(state)` from `interactions/view_submission.py`:
sort the items by key, keep the blocks whose id starts with
`choice_block_`, and collect each truthy `value`, stripped. -/
def extract_choices (state : ViewState) : List String :=
  (sortByKey state).filterMap (fun item =>
    if pyStartsWith item.1 "choice_block_" then
      match item.2.value with
      | some v => if v ≠ "" then some v.trim else none
      | none => none
    else none)

/-- `view_state.get(block_id)`, a Python dict lookup. -/
def stateLookup (state : ViewState) (bid : String) : Option BlockData :=
  (state.find? (fun item => decide (item.1 = bid))).map (fun item => item.2)

/-- `view_state["question_block"]["question_input"]["value"]`. -/
def questionValue (state : ViewState) : Option String :=
  match stateLookup state "question_block" with
  | some (BlockData.textInput aid v) => if aid = "question_input" then v else none
  | _ => none

/-- `view_state["channel_block"]["channels_input"]["selected_conversations"]`. -/
def selectedChannels (state : ViewState) : List String :=
  match stateLookup state "channel_block" with
  | some (BlockData.conversations aid cs) => if aid = "channels_input" then cs else []
  | _ => []

/-- The values of `view_state.get("settings_block", ...)
.get("settings_checkboxes", ...).get("selected_options", [])`. -/
def selectedSettingValues (state : ViewState) : List String :=
  match stateLookup state "settings_block" with
  | some (BlockData.checkboxes aid vs) => if aid = "settings_checkboxes" then vs else []
  | _ => []

/-- Python truthiness of an optional string (absent and empty are falsy). -/
def truthyStr (s : Option String) : Bool :=
  match s with
  | none => false
  | some v => v ≠ ""

/-! ### Poll creation (`_handle_submit_poll` in `interactions/view_submission.py`) -/

inductive SubmitResp where
  | validationErrors (errors : List (String × String))
  | inviteRequired (notJoined : List String)
  | created (pollId : Nat)
  deriving DecidableEq, Repr

/-- Result of one `_handle_submit_poll` run: the poll collection, the draft
store, whether `drafts.delete_one` was called, whether the broadcast task
(`send_poll_to_channels`) was scheduled, and the response. -/
structure SubmitResult where
  polls : List Poll
  drafts : String → Option ViewState
  draftDeleted : Bool
  broadcastScheduled : Bool
  resp : SubmitResp

/-- `drafts.update_one(filter by user_id, set state, upsert=True)`:
the user's single draft document is replaced or created. -/
def draftsUpsert (drafts : String → Option ViewState) (uid : String) (state : ViewState) :
    String → Option ViewState :=
  fun v => if v = uid then some state else drafts v

/-- `drafts.delete_one(filter by user_id)`. -/
def draftsDelete (drafts : String → Option ViewState) (uid : String) :
    String → Option ViewState :=
  fun v => if v = uid then none else drafts v

/-- `_handle_submit_poll`: validate question/choices/channels, then check
bot membership of every selected channel (`joined c` is false when
`conversations.info` reports the bot absent, reports not-ok, or fails); on
any non-joined channel upsert the raw view state as the user's draft and
answer with the instructional view; otherwise insert the poll document,
delete the user's draft, and schedule the broadcast task.  `newPollId` and
`freshChoiceId` model the generated ObjectIds. -/
def handle_submit_poll (pollsDb : List Poll) (drafts : String → Option ViewState)
    (userId : String) (state : ViewState) (joined : String → Bool)
    (newPollId : Nat) (freshChoiceId : Nat → Nat) : SubmitResult :=
  let question := questionValue state
  let choices_text := extract_choices state
  let channels := selectedChannels state
  let selected_values := selectedSettingValues state
  if !(truthyStr question && !choices_text.isEmpty && !channels.isEmpty) then
    { polls := pollsDb, drafts := drafts, draftDeleted := false, broadcastScheduled := false,
      resp := SubmitResp.validationErrors
        ((if !truthyStr question then [("question_block", "A question is required.")] else []) ++
         (if choices_text.isEmpty then [("choice_block_0", "At least one option is required.")] else []) ++
         (if channels.isEmpty then [("channel_block", "At least one channel must be selected.")] else [])) }
  else
    let not_joined := channels.filter (fun c => !joined c)
    if !not_joined.isEmpty then
      { polls := pollsDb, drafts := draftsUpsert drafts userId state,
        draftDeleted := false, broadcastScheduled := false,
        resp := SubmitResp.inviteRequired not_joined.dedup }
    else
      let question2 :=
        if "tag_channel" ∈ selected_values then " <!channel> " ++ question.getD ""
        else question.getD ""
      let texts := choices_text.filter (fun t => t ≠ "")
      let doc : Poll :=
        { id := newPollId
          question := question2
          choices := texts.enum.map (fun it =>
            { id := freshChoiceId it.1, text := it.2, voters := [] })
          creator_id := userId
          allow_multiple_votes := "allow_multiple" ∈ selected_values
          allow_others_to_add_options := "allow_others_to_add" ∈ selected_values
          messages := []
          channels := channels }
      { polls := pollsDb ++ [doc], drafts := draftsDelete drafts userId,
        draftDeleted := true, broadcastScheduled := true,
        resp := SubmitResp.created newPollId }

/-! ### Poll edit and delete (`interactions/view_submission.py`) -/

inductive EditResp where
  | authError
  | ok
  deriving DecidableEq, Repr

/-- The choice-list rebuild of `_handle_edit_poll`: position `i` of the new
text list keeps old choice `i`'s `_id` and `voters` when `i` is in range of
the old list; later positions become brand-new choices. -/
def rebuildChoices (old : List Choice) (newTexts : List String)
    (freshChoiceId : Nat → Nat) : List Choice :=
  newTexts.enum.map (fun it =>
    match old[it.1]? with
    | some oc => { id := oc.id, text := it.2, voters := oc.voters }
    | none => { id := freshChoiceId it.1, text := it.2, voters := [] })

/-- `_handle_edit_poll`: find the poll; unless the requester is the creator,
answer with the inline authorization error and touch nothing; otherwise
`$set` the question, the rebuilt choices and the add-options flag. -/
def handle_edit_poll (pollsDb : List Poll) (pollId : Nat) (userId : String)
    (state : ViewState) (freshChoiceId : Nat → Nat) : List Poll × EditResp :=
  match pollsDb.find? (fun p => decide (p.id = pollId)) with
  | none => (pollsDb, EditResp.authError)
  | some p =>
    if p.creator_id ≠ userId then (pollsDb, EditResp.authError)
    else
      let p2 : Poll :=
        { p with
          question := (questionValue state).getD ""
          choices := rebuildChoices p.choices (extract_choices state) freshChoiceId
          allow_others_to_add_options := "allow_others_to_add" ∈ selectedSettingValues state }
      (updateById pollsDb pollId (fun _ => p2), EditResp.ok)

/-- `delete_one(filter by _id)`: the first document with this id is removed. -/
def deleteById (db : List Poll) (pid : Nat) : List Poll :=
  match db with
  | [] => []
  | p :: rest => if p.id = pid then rest else p :: deleteById rest pid

/-- `_handle_delete_poll_confirmed` in `interactions/view_submission.py`:
forbid non-creators with HTTP 403 and no side effect; otherwise issue one
`chat.delete` per recorded message, remove the document, and answer HTTP
200.  Returns the new collection, the `chat.delete` calls issued (channel
and ts), and the HTTP status. -/
def handle_delete_poll_confirmed (pollsDb : List Poll) (pollId : Nat) (userId : String) :
    List Poll × List (String × String) × Nat :=
  match pollsDb.find? (fun p => decide (p.id = pollId)) with
  | none => (pollsDb, [], 403)
  | some p =>
    if p.creator_id ≠ userId then (pollsDb, [], 403)
    else
      (deleteById pollsDb pollId,
       p.messages.map (fun m => (m.channel.getD "", m.ts.getD "")),
       200)

/-! ### Choice block ids and the draft-restoring order (`view_loader.py`) -/

/-- Decimal digits of a natural number, as produced by Python `str` when the
running choice counter is interpolated into `choice_block_...` block ids. -/
def natToDecimalAux : Nat → Nat → List Char
  | 0, _ => []
  | fuel + 1, n =>
    if n < 10 then [Nat.digitChar n]
    else natToDecimalAux fuel (n / 10) ++ [Nat.digitChar (n % 10)]

def natToDecimal (n : Nat) : List Char := natToDecimalAux (n + 1) n

/-- The block id of the i-th choice input block. -/
def choiceBlockId (i : Nat) : String := String.mk ("choice_block_".data ++ natToDecimal i)

/-- Python `s.split` on a single underscore separator. -/
def splitUnderscore : List Char → List (List Char)
  | [] => [[]]
  | c :: rest =>
    if c = '_' then [] :: splitUnderscore rest
    else
      match splitUnderscore rest with
      | [] => [[c]]
      | g :: gs => (c :: g) :: gs

/-- Python `int` on a decimal-digit string (code point minus 48). -/
def decimalToNat (ds : List Char) : Nat :=
  ds.foldl (fun acc c => acc * 10 + (c.toNat - 48)) 0

/-- The sort key `int(item[0].split(underscore)[-1])` used by the
draft-restoring path in `view_loader.get_create_poll_modal`. -/
def numericSuffix (s : String) : Nat :=
  decimalToNat ((splitUnderscore s.data).getLastD [])

/-- The numeric-suffix order of the draft-restoring path. -/
def numKeyLe (a b : String × BlockData) : Prop := numericSuffix a.1 ≤ numericSuffix b.1

instance : DecidableRel numKeyLe := fun a b =>
  inferInstanceAs (Decidable (numericSuffix a.1 ≤ numericSuffix b.1))

/-- `view_loader.get_create_poll_modal`'s draft path:
`sorted(choice items of the draft, key=lambda item: int(item[0].split(underscore)[-1]))`. -/
def draftChoiceBlocks (draft : ViewState) : ViewState :=
  List.insertionSort numKeyLe (draft.filter (fun item => pyStartsWith item.1 "choice_block_"))

/-- The index order induced by comparing the choice block-id strings the way
`_extract_choices` sorts them (a specification-side notion used to state the
ordering claim). -/
def idxKeyLe (i j : Nat) : Prop := strLeB (choiceBlockId i).data (choiceBlockId j).data = true

instance : DecidableRel idxKeyLe := fun i j =>
  inferInstanceAs (Decidable (strLeB (choiceBlockId i).data (choiceBlockId j).data = true))

/-- The indices `0, ..., n-1` reordered by the lexicographic comparison of
their choice block-id strings (a specification-side notion). -/
def lexOrderedIndices (n : Nat) : List Nat :=
  List.insertionSort idxKeyLe (List.range n)

/-! ## Generic lemmas about first-match updates and `Forall₂` -/

theorem length_updateFirstBy (pred : α → Bool) (f : α → α) (l : List α) :
    (updateFirstBy pred f l).length = l.length := by
  induction l with
  | nil => rfl
  | cons x rest ih =>
    cases hpx : pred x <;> simp [updateFirstBy, hpx, ih]

theorem updateFirstBy_eq_self (pred : α → Bool) (f : α → α) (l : List α)
    (h : ∀ x ∈ l, pred x = true → f x = x) : updateFirstBy pred f l = l := by
  induction l with
  | nil => rfl
  | cons x rest ih =>
    cases hpx : pred x with
    | true =>
      simp only [updateFirstBy, hpx, if_true]
      rw [h x (List.mem_cons_self x rest) hpx]
    | false =>
      simp only [updateFirstBy, hpx, Bool.false_eq_true, if_false]
      rw [ih (fun y hy => h y (List.mem_cons_of_mem x hy))]

theorem map_updateFirstBy (pred : α → Bool) (f : α → α) (g : α → β) (l : List α)
    (h : ∀ x, g (f x) = g x) : (updateFirstBy pred f l).map g = l.map g := by
  induction l with
  | nil => rfl
  | cons x rest ih =>
    cases hpx : pred x <;> simp [updateFirstBy, hpx, ih, h]

theorem forall₂_updateFirstBy (pred : α → Bool) (f : α → α) (l : List α)
    (huniq : l.Pairwise (fun a b => pred a = true → pred b = false)) :
    List.Forall₂ (fun x y => (pred x = true → y = f x) ∧ (pred x = false → y = x)) l
      (updateFirstBy pred f l) := by
  induction l with
  | nil => exact List.Forall₂.nil
  | cons x rest ih =>
    rw [List.pairwise_cons] at huniq
    cases hpx : pred x with
    | true =>
      simp only [updateFirstBy, hpx, if_true]
      refine List.Forall₂.cons ⟨fun _ => rfl, fun hf => by rw [hpx] at hf; cases hf⟩ ?_
      refine List.forall₂_same.mpr (fun y hy => ⟨fun hpy => ?_, fun _ => rfl⟩)
      rw [huniq.1 y hy hpx] at hpy
      cases hpy
    | false =>
      simp only [updateFirstBy, hpx, Bool.false_eq_true, if_false]
      exact List.Forall₂.cons ⟨fun ht => absurd ht (by rw [hpx]; exact Bool.false_ne_true), fun _ => rfl⟩
        (ih huniq.2)

theorem forall₂_comp_mem {α β γ : Type} {R : α → β → Prop} {S : β → γ → Prop}
    {T : α → γ → Prop} :
    ∀ {l₁ : List α} {l₂ : List β} {l₃ : List γ},
      List.Forall₂ R l₁ l₂ → List.Forall₂ S l₂ l₃ →
      (∀ a b c, a ∈ l₁ → R a b → S b c → T a c) → List.Forall₂ T l₁ l₃
  | _, _, _, List.Forall₂.nil, h₂, _ => by cases h₂; exact List.Forall₂.nil
  | _, _, _, List.Forall₂.cons hab htail, h₂, h => by
    cases h₂ with
    | cons hbc htail2 =>
      exact List.Forall₂.cons (h _ _ _ (List.mem_cons_self _ _) hab hbc)
        (forall₂_comp_mem htail htail2 (fun a b c ha => h a b c (List.mem_cons_of_mem _ ha)))

theorem exists_iff_of_forall₂ {R : α → β → Prop} (P : α → Prop) (Q : β → Prop)
    {l₁ : List α} {l₂ : List β} (h : List.Forall₂ R l₁ l₂)
    (hpq : ∀ a b, R a b → (Q b ↔ P a)) :
    (∃ b ∈ l₂, Q b) ↔ (∃ a ∈ l₁, P a) := by
  induction h with
  | nil => simp
  | cons hab htail ih =>
    constructor
    · rintro ⟨b, hb, hQ⟩
      rcases List.mem_cons.mp hb with rfl | hb2
      · exact ⟨_, List.mem_cons_self _ _, (hpq _ _ hab).mp hQ⟩
      · obtain ⟨a, ha, hP⟩ := ih.mp ⟨b, hb2, hQ⟩
        exact ⟨a, List.mem_cons_of_mem _ ha, hP⟩
    · rintro ⟨a, ha, hP⟩
      rcases List.mem_cons.mp ha with rfl | ha2
      · exact ⟨_, List.mem_cons_self _ _, (hpq _ _ hab).mpr hP⟩
      · obtain ⟨b, hb, hQ⟩ := ih.mpr ⟨a, ha2, hP⟩
        exact ⟨b, List.mem_cons_of_mem _ hb, hQ⟩

theorem forall₂_imp_mem {R S : α → β → Prop} :
    ∀ {l₁ : List α} {l₂ : List β}, List.Forall₂ R l₁ l₂ →
      (∀ a b, a ∈ l₁ → R a b → S a b) → List.Forall₂ S l₁ l₂
  | _, _, List.Forall₂.nil, _ => List.Forall₂.nil
  | _, _, List.Forall₂.cons hab htail, h =>
    List.Forall₂.cons (h _ _ (List.mem_cons_self _ _) hab)
      (forall₂_imp_mem htail (fun a b ha => h a b (List.mem_cons_of_mem _ ha)))

/-! ## Vote-mutator characterizations -/

theorem mem_pullVoter {c : Choice} {u v : String} :
    v ∈ (c.pullVoter u).voters ↔ v ∈ c.voters ∧ v ≠ u := by
  simp [Choice.pullVoter]

theorem forall₂_pullAllVoters (p : Poll) (u : String) :
    List.Forall₂ (fun c c' => c' = c.pullVoter u) p.choices (p.pullAllVoters u).choices := by
  show List.Forall₂ _ p.choices (p.choices.map (fun c => c.pullVoter u))
  rw [List.forall₂_map_right_iff]
  exact List.forall₂_same.mpr (fun c _ => rfl)

theorem forall₂_updateFirstChoice {cs : List Choice} (hnd : (cs.map Choice.id).Nodup)
    (cid : Nat) (f : Choice → Choice) :
    List.Forall₂ (fun c c' => (c.id = cid → c' = f c) ∧ (c.id ≠ cid → c' = c)) cs
      (updateFirstChoice cs cid f) := by
  have hne : cs.Pairwise (fun a b => a.id ≠ b.id) := List.pairwise_map.mp hnd
  have hp : cs.Pairwise (fun a b =>
      decide (a.id = cid) = true → decide (b.id = cid) = false) := by
    refine hne.imp ?_
    intro a b h ha
    have ha' : a.id = cid := of_decide_eq_true ha
    exact decide_eq_false (fun hb => h (ha'.trans hb.symm))
  have h2 := forall₂_updateFirstBy (fun c => decide (c.id = cid)) f cs hp
  refine List.Forall₂.imp ?_ h2
  rintro a b ⟨hyes, hno⟩
  exact ⟨fun hid => hyes (decide_eq_true hid), fun hne2 => hno (decide_eq_false hne2)⟩

theorem alreadyVoted_iff {p : Poll} {cid : Nat} {u : String} :
    p.alreadyVoted cid u = true ↔ ∃ c ∈ p.choices, c.id = cid ∧ u ∈ c.voters := by
  simp [Poll.alreadyVoted]

theorem alreadyVoted_iff_mem {p : Poll} {cid : Nat} (u : String)
    (hnd : (p.choices.map Choice.id).Nodup) {c : Choice}
    (hc : c ∈ p.choices) (hid : c.id = cid) :
    p.alreadyVoted cid u = true ↔ u ∈ c.voters := by
  rw [alreadyVoted_iff]
  constructor
  · rintro ⟨c₂, hc₂, hid₂, hu⟩
    have heq : c₂ = c := List.inj_on_of_nodup_map hnd hc₂ hc (by rw [hid₂, hid])
    rwa [heq] at hu
  · exact fun hu => ⟨c, hc, hid, hu⟩

/-- Per-choice characterization of a single-vote toggle: ids and texts are
unchanged, the toggling user ends up exactly on the selected choice when they
had not already voted for it (and nowhere otherwise), and other users'
memberships are untouched. -/
theorem toggleVote_single (p : Poll) (cid : Nat) (u : String)
    (hs : p.allow_multiple_votes = false)
    (hnd : (p.choices.map Choice.id).Nodup) :
    List.Forall₂ (fun c c' =>
        c'.id = c.id ∧ c'.text = c.text ∧
        (u ∈ c'.voters ↔ (c.id = cid ∧ p.alreadyVoted cid u = false)) ∧
        (∀ v, v ≠ u → (v ∈ c'.voters ↔ v ∈ c.voters)))
      p.choices (toggleVote p cid u).choices := by
  have hpull := forall₂_pullAllVoters p u
  unfold toggleVote
  cases ha : p.alreadyVoted cid u with
  | true =>
    simp only [hs, ha, Bool.not_false, Bool.not_true, if_true, Bool.false_eq_true, if_false]
    refine List.Forall₂.imp ?_ hpull
    rintro c c' rfl
    refine ⟨rfl, rfl, ?_, fun v hv => ?_⟩
    · simp [mem_pullVoter]
    · simp [mem_pullVoter, hv]
  | false =>
    simp only [hs, ha, Bool.not_false, if_true]
    have hnd2 : (((p.pullAllVoters u).choices).map Choice.id).Nodup := by
      show ((p.choices.map (fun c => c.pullVoter u)).map Choice.id).Nodup
      rw [List.map_map]
      exact hnd
    have hpush := forall₂_updateFirstChoice hnd2 cid
      (fun c => { c with voters := c.voters ++ [u] })
    refine forall₂_comp_mem hpull hpush ?_
    rintro c c₁ c₂ hc rfl hr
    by_cases hid : c.id = cid
    · have hc₂ : c₂ = { c.pullVoter u with voters := (c.pullVoter u).voters ++ [u] } :=
        hr.1 hid
      refine ⟨by simp [hc₂, Choice.pullVoter], by simp [hc₂, Choice.pullVoter], ?_,
        fun v hv => ?_⟩
      · simp [hc₂, hid]
      · simp [hc₂, mem_pullVoter, hv, Choice.pullVoter]
    · have hc₂ : c₂ = c.pullVoter u := hr.2 hid
      refine ⟨by simp [hc₂, Choice.pullVoter], by simp [hc₂, Choice.pullVoter], ?_, fun v hv => ?_⟩
      · simp [hc₂, mem_pullVoter, hid]
      · simp [hc₂, mem_pullVoter, hv]

/-- Per-choice characterization of a multi-vote toggle: choices other than
the selected one are untouched documents, and the selected choice keeps its
id and text, flips the toggling user's membership, and keeps every other
user's membership. -/
theorem toggleVote_multi (p : Poll) (cid : Nat) (u : String)
    (hm : p.allow_multiple_votes = true)
    (hnd : (p.choices.map Choice.id).Nodup) :
    List.Forall₂ (fun c c' =>
        (c.id ≠ cid → c' = c) ∧
        c'.id = c.id ∧ c'.text = c.text ∧
        (c.id = cid → ((u ∈ c'.voters ↔ u ∉ c.voters) ∧
          (∀ v, v ≠ u → (v ∈ c'.voters ↔ v ∈ c.voters)))))
      p.choices (toggleVote p cid u).choices := by
  unfold toggleVote
  cases ha : p.alreadyVoted cid u with
  | true =>
    simp only [hm, ha, Bool.not_true, Bool.false_eq_true, if_false, if_true]
    have h := forall₂_updateFirstChoice hnd cid (fun c => c.pullVoter u)
    refine forall₂_imp_mem h ?_
    rintro c c' hc hr
    by_cases hid : c.id = cid
    · have hc' : c' = c.pullVoter u := hr.1 hid
      have hu : u ∈ c.voters := (alreadyVoted_iff_mem u hnd hc hid).mp ha
      refine ⟨fun hne => absurd hid hne, by simp [hc', Choice.pullVoter],
        by simp [hc', Choice.pullVoter], fun _ => ⟨?_, fun v hv => ?_⟩⟩
      · simp [hc', mem_pullVoter, hu]
      · simp [hc', mem_pullVoter, hv]
    · have hc' : c' = c := hr.2 hid
      exact ⟨fun _ => hc', by rw [hc'], by rw [hc'], fun hcid => absurd hcid hid⟩
  | false =>
    simp only [hm, ha, Bool.false_eq_true, if_false]
    have h := forall₂_updateFirstChoice hnd cid
      (fun c => if u ∈ c.voters then c else { c with voters := c.voters ++ [u] })
    refine forall₂_imp_mem h ?_
    rintro c c' hc hr
    by_cases hid : c.id = cid
    · have hu : u ∉ c.voters := fun hu =>
        absurd ((alreadyVoted_iff_mem u hnd hc hid).mpr hu) (by rw [ha]; exact Bool.false_ne_true)
      have hc' : c' = { c with voters := c.voters ++ [u] } := by
        rw [hr.1 hid, if_neg hu]
      refine ⟨fun hne => absurd hid hne, by rw [hc'], by rw [hc'], fun _ => ⟨?_, fun v hv => ?_⟩⟩
      · simp [hc', hu]
      · simp [hc', hv]
    · have hc' : c' = c := hr.2 hid
      exact ⟨fun _ => hc', by rw [hc'], by rw [hc'], fun hcid => absurd hcid hid⟩

/-! ## Exclusivity counting -/

theorem votedChoiceCount_pullAllVoters_self (p : Poll) (u : String) :
    votedChoiceCount (p.pullAllVoters u) u = 0 := by
  unfold votedChoiceCount
  rw [List.length_eq_zero, List.filter_eq_nil_iff]
  intro c hc
  show ¬decide (u ∈ c.voters) = true
  simp only [decide_eq_true_eq]
  obtain ⟨c₀, _, rfl⟩ := List.mem_map.mp hc
  simp [mem_pullVoter]

theorem length_filter_updateFirstBy_le_one (pred : α → Bool) (f : α → α) (P : α → Bool)
    (l : List α) (h : ∀ x ∈ l, P x = false) :
    ((updateFirstBy pred f l).filter P).length ≤ 1 := by
  induction l with
  | nil => simp [updateFirstBy]
  | cons x rest ih =>
    have hx : P x = false := h x (List.mem_cons_self _ _)
    have hrest : ∀ y ∈ rest, P y = false := fun y hy => h y (List.mem_cons_of_mem _ hy)
    cases hpx : pred x with
    | true =>
      simp only [updateFirstBy, hpx, if_true, List.filter_cons]
      have hnil : rest.filter P = [] :=
        List.filter_eq_nil_iff.mpr (fun y hy => by simp [hrest y hy])
      cases hPfx : P (f x) <;> simp [hPfx, hnil]
    | false =>
      simp only [updateFirstBy, hpx, Bool.false_eq_true, if_false, List.filter_cons, hx,
        Bool.false_eq_true]
      exact ih hrest

theorem length_filter_updateFirstBy_congr (pred : α → Bool) (f : α → α) (P : α → Bool)
    (l : List α) (h : ∀ x, P (f x) = P x) :
    ((updateFirstBy pred f l).filter P).length = (l.filter P).length := by
  induction l with
  | nil => rfl
  | cons x rest ih =>
    cases hpx : pred x with
    | true =>
      simp only [updateFirstBy, hpx, if_true, List.filter_cons, h x]
      cases hPx : P x <;> simp [hPx]
    | false =>
      simp only [updateFirstBy, hpx, Bool.false_eq_true, if_false, List.filter_cons]
      cases hPx : P x <;> simp [hPx, ih]

theorem votedChoiceCount_pullAllVoters_other (p : Poll) (u v : String) (hv : v ≠ u) :
    votedChoiceCount (p.pullAllVoters u) v = votedChoiceCount p v := by
  unfold votedChoiceCount
  show ((p.choices.map (fun c => c.pullVoter u)).filter _).length = _
  rw [List.filter_map, List.length_map]
  congr 1
  refine List.filter_congr ?_
  intro c _
  exact decide_eq_decide.mpr (by simp [Function.comp, mem_pullVoter, hv])

theorem toggleVote_allow_multiple (p : Poll) (cid : Nat) (u : String) :
    (toggleVote p cid u).allow_multiple_votes = p.allow_multiple_votes := by
  unfold toggleVote Poll.pullAllVoters Poll.pushVoter Poll.addToSetVoter Poll.pullVoterFromChoice
  cases p.allow_multiple_votes <;> cases p.alreadyVoted cid u <;> rfl

theorem votedChoiceCount_toggle_self_le (p : Poll) (cid : Nat) (u : String)
    (hs : p.allow_multiple_votes = false) :
    votedChoiceCount (toggleVote p cid u) u ≤ 1 := by
  unfold toggleVote
  cases ha : p.alreadyVoted cid u with
  | true =>
    simp only [hs, ha, Bool.not_false, if_true, Bool.not_true, Bool.false_eq_true, if_false]
    rw [votedChoiceCount_pullAllVoters_self]
    exact Nat.zero_le 1
  | false =>
    simp only [hs, ha, Bool.not_false, if_true]
    have h0 := votedChoiceCount_pullAllVoters_self p u
    unfold votedChoiceCount at h0 ⊢
    show ((updateFirstChoice (p.pullAllVoters u).choices cid _).filter _).length ≤ 1
    unfold updateFirstChoice
    refine length_filter_updateFirstBy_le_one _ _ _ _ ?_
    intro c hc
    have := List.filter_eq_nil_iff.mp (List.length_eq_zero.mp h0) c hc
    simpa using this

theorem votedChoiceCount_toggle_other (p : Poll) (cid : Nat) (u v : String) (hv : v ≠ u) :
    votedChoiceCount (toggleVote p cid u) v = votedChoiceCount p v := by
  have hP : ∀ c : Choice,
      decide (v ∈ (({ c with voters := c.voters ++ [u] } : Choice)).voters) =
        decide (v ∈ c.voters) :=
    fun c => decide_eq_decide.mpr (by simp [hv])
  unfold toggleVote
  cases hm : p.allow_multiple_votes with
  | false =>
    cases ha : p.alreadyVoted cid u with
    | true =>
      simp only [hm, ha, Bool.not_false, if_true, Bool.not_true, Bool.false_eq_true, if_false]
      exact votedChoiceCount_pullAllVoters_other p u v hv
    | false =>
      simp only [hm, ha, Bool.not_false, if_true]
      have h2 : votedChoiceCount ((p.pullAllVoters u).pushVoter cid u) v =
          votedChoiceCount (p.pullAllVoters u) v := by
        unfold votedChoiceCount Poll.pushVoter updateFirstChoice
        exact length_filter_updateFirstBy_congr _ _ _ _ hP
      rw [h2, votedChoiceCount_pullAllVoters_other p u v hv]
  | true =>
    cases ha : p.alreadyVoted cid u with
    | true =>
      simp only [hm, ha, Bool.not_true, Bool.false_eq_true, if_false, if_true]
      unfold votedChoiceCount Poll.pullVoterFromChoice updateFirstChoice
      refine length_filter_updateFirstBy_congr _ _ _ _ ?_
      intro c
      exact decide_eq_decide.mpr (by simp [mem_pullVoter, hv])
    | false =>
      simp only [hm, ha, Bool.not_true, Bool.false_eq_true, if_false]
      unfold votedChoiceCount Poll.addToSetVoter updateFirstChoice
      refine length_filter_updateFirstBy_congr _ _ _ _ ?_
      intro c
      by_cases hu : u ∈ c.voters
      · simp [hu]
      · simp only [hu, if_false]
        exact hP c

theorem toggleVote_preserves_exclusive (p : Poll) (cid : Nat) (u : String)
    (hs : p.allow_multiple_votes = false) (hex : SingleVoteExclusive p) :
    SingleVoteExclusive (toggleVote p cid u) := by
  intro v
  by_cases hv : v = u
  · rw [hv]
    exact votedChoiceCount_toggle_self_le p cid u hs
  · rw [votedChoiceCount_toggle_other p cid u v hv]
    exact hex v

theorem foldl_toggle_exclusive (p : Poll)
    (hs : p.allow_multiple_votes = false) (hex : SingleVoteExclusive p)
    (toggles : List (Nat × String)) :
    SingleVoteExclusive (toggles.foldl (fun q t => toggleVote q t.1 t.2) p) := by
  induction toggles generalizing p with
  | nil => exact hex
  | cons t rest ih =>
    exact ih (toggleVote p t.1 t.2)
      (by rw [toggleVote_allow_multiple]; exact hs)
      (toggleVote_preserves_exclusive p t.1 t.2 hs hex)

theorem pullAllVoters_map_id (p : Poll) (u : String) :
    ((p.pullAllVoters u).choices).map Choice.id = p.choices.map Choice.id := by
  show ((p.choices.map (fun c => c.pullVoter u)).map Choice.id) = _
  rw [List.map_map]
  rfl

theorem toggleVote_map_id (p : Poll) (cid : Nat) (u : String) :
    (toggleVote p cid u).choices.map Choice.id = p.choices.map Choice.id := by
  unfold toggleVote
  cases hm : p.allow_multiple_votes with
  | false =>
    cases ha : p.alreadyVoted cid u with
    | true =>
      simp only [Bool.not_false, if_true, Bool.not_true, Bool.false_eq_true, if_false]
      exact pullAllVoters_map_id p u
    | false =>
      simp only [Bool.not_false, if_true]
      show ((updateFirstChoice (p.pullAllVoters u).choices cid _).map Choice.id) = _
      unfold updateFirstChoice
      exact (map_updateFirstBy (fun c => decide (c.id = cid))
        (fun c => { c with voters := c.voters ++ [u] }) Choice.id
        (p.pullAllVoters u).choices (fun c => rfl)).trans (pullAllVoters_map_id p u)
  | true =>
    cases ha : p.alreadyVoted cid u with
    | true =>
      simp only [Bool.not_true, Bool.false_eq_true, if_false, if_true]
      show ((updateFirstChoice p.choices cid _).map Choice.id) = _
      unfold updateFirstChoice
      exact map_updateFirstBy (fun c => decide (c.id = cid)) (fun c => c.pullVoter u)
        Choice.id p.choices (fun c => rfl)
    | false =>
      simp only [Bool.not_true, Bool.false_eq_true, if_false]
      show ((updateFirstChoice p.choices cid _).map Choice.id) = _
      unfold updateFirstChoice
      refine map_updateFirstBy _ _ Choice.id _ ?_
      intro c
      by_cases hu : u ∈ c.voters <;> simp [hu]

/-! ## Claim C1 -/

/-- C1: for every poll in single-vote mode whose voter sets satisfy the
exclusivity invariant, every sequence of vote toggles preserves the invariant
(after each toggle every user appears in at most one choice's voter set);
moreover a single toggle on choice `cid` by user `u` removes `u` from every
choice and then adds `u` to the choice with id `cid` exactly when `u` was not
already one of its voters (switch vote vs. unvote), leaving ids, texts and
every other user's memberships unchanged. -/
theorem claim_C1_single_vote_exclusivity (p : Poll)
    (hs : p.allow_multiple_votes = false)
    (hnd : (p.choices.map Choice.id).Nodup)
    (hex : SingleVoteExclusive p) :
    (∀ toggles : List (Nat × String),
      SingleVoteExclusive (toggles.foldl (fun q t => toggleVote q t.1 t.2) p)) ∧
    (∀ cid u, List.Forall₂ (fun c c' =>
        c'.id = c.id ∧ c'.text = c.text ∧
        (u ∈ c'.voters ↔ (c.id = cid ∧ p.alreadyVoted cid u = false)) ∧
        (∀ v, v ≠ u → (v ∈ c'.voters ↔ v ∈ c.voters)))
      p.choices (toggleVote p cid u).choices) :=
  ⟨foldl_toggle_exclusive p hs hex, fun cid u => toggleVote_single p cid u hs hnd⟩

/-- A freshly created single-vote poll used to witness C1. -/
def pollW1 : Poll :=
  { id := 1, question := "Lunch?", choices := [⟨11, "Pizza", []⟩, ⟨12, "Salad", []⟩],
    creator_id := "creator", allow_multiple_votes := false,
    allow_others_to_add_options := false, messages := [], channels := ["C1"] }

theorem pollW1_exclusive : SingleVoteExclusive pollW1 := by
  intro u
  simp [votedChoiceCount, pollW1]

/-- Witness for C1 at a concrete poll, toggle sequence and user. -/
theorem claim_C1_single_vote_exclusivity_witness :
    votedChoiceCount ([((11 : Nat), "alice"), ((12 : Nat), "alice")].foldl
      (fun q t => toggleVote q t.1 t.2) pollW1) "alice" ≤ 1 :=
  (claim_C1_single_vote_exclusivity pollW1 rfl (by decide) pollW1_exclusive).1
    [(11, "alice"), (12, "alice")] "alice"

/-! ## Claim C2 -/

/-- C2: for every poll in multi-vote mode, a toggle on choice `cid` by user
`u` leaves every choice with a different id untouched, and on the choice with
id `cid` it flips `u`'s membership (add if absent, remove if present) while
keeping its id, its text and every other user's membership. -/
theorem claim_C2_multi_vote_toggle (p : Poll) (cid : Nat) (u : String)
    (hm : p.allow_multiple_votes = true)
    (hnd : (p.choices.map Choice.id).Nodup) :
    List.Forall₂ (fun c c' =>
        (c.id ≠ cid → c' = c) ∧
        c'.id = c.id ∧ c'.text = c.text ∧
        (c.id = cid → ((u ∈ c'.voters ↔ u ∉ c.voters) ∧
          (∀ v, v ≠ u → (v ∈ c'.voters ↔ v ∈ c.voters)))))
      p.choices (toggleVote p cid u).choices :=
  toggleVote_multi p cid u hm hnd

/-- A multi-vote poll used to witness C2. -/
def pollW2 : Poll :=
  { id := 2, question := "q", choices := [⟨21, "A", ["bob"]⟩, ⟨22, "B", []⟩],
    creator_id := "creator", allow_multiple_votes := true,
    allow_others_to_add_options := false, messages := [], channels := ["C1"] }

/-- Witness for C2 at a concrete poll, choice and user. -/
theorem claim_C2_multi_vote_toggle_witness :
    List.Forall₂ (fun c c' =>
        (c.id ≠ 21 → c' = c) ∧
        c'.id = c.id ∧ c'.text = c.text ∧
        (c.id = 21 → ((("bob" : String) ∈ c'.voters ↔ ("bob" : String) ∉ c.voters) ∧
          (∀ v, v ≠ "bob" → (v ∈ c'.voters ↔ v ∈ c.voters)))))
      pollW2.choices (toggleVote pollW2 21 "bob").choices :=
  claim_C2_multi_vote_toggle pollW2 21 "bob" rfl (by decide)

/-! ## Claim C3 -/

/-- A single-vote poll in which `u1` currently votes choice 32. -/
def pollX3 : Poll :=
  { id := 3, question := "q", choices := [⟨31, "A", []⟩, ⟨32, "B", ["u1"]⟩],
    creator_id := "creator", allow_multiple_votes := false,
    allow_others_to_add_options := false, messages := [], channels := [] }

/-- C3 counterexample: with `u1` initially a voter of choice 32 of a
single-vote poll, toggling choice 31 twice does not restore the voter sets
(the first toggle switches `u1` to 31, the second unvotes), so after the
double toggle `u1` votes nowhere although they voted 32 before. -/
theorem claim_C3_toggle_idempotence_counterexample :
    votedChoiceCount pollX3 "u1" = 1 ∧
    votedChoiceCount (toggleVote (toggleVote pollX3 31 "u1") 31 "u1") "u1" = 0 := by
  decide

/-- C3 amended: a double toggle of the same choice by the same user restores
every choice's id, text and voter-set membership when the poll is in
multi-vote mode, and also in single-vote mode provided the user is not
currently a voter of any choice other than the toggled one. -/
theorem claim_C3_toggle_idempotence_amended (p : Poll) (cid : Nat) (u : String)
    (hnd : (p.choices.map Choice.id).Nodup)
    (h : p.allow_multiple_votes = true ∨
      (p.allow_multiple_votes = false ∧ ∀ c ∈ p.choices, c.id ≠ cid → u ∉ c.voters)) :
    List.Forall₂ (fun c c'' => c''.id = c.id ∧ c''.text = c.text ∧
        (∀ v, v ∈ c''.voters ↔ v ∈ c.voters))
      p.choices (toggleVote (toggleVote p cid u) cid u).choices := by
  have hnd₁ : ((toggleVote p cid u).choices.map Choice.id).Nodup := by
    rw [toggleVote_map_id]; exact hnd
  rcases h with hm | ⟨hs, hclean⟩
  · have h₁ := toggleVote_multi p cid u hm hnd
    have h₂ := toggleVote_multi (toggleVote p cid u) cid u
      (by rw [toggleVote_allow_multiple]; exact hm) hnd₁
    refine forall₂_comp_mem h₁ h₂ ?_
    rintro c c₁ c₂ hc hr₁ hr₂
    by_cases hid : c.id = cid
    · have hid₁ : c₁.id = cid := by rw [hr₁.2.1, hid]
      obtain ⟨hu₁, hv₁⟩ := hr₁.2.2.2 hid
      obtain ⟨hu₂, hv₂⟩ := hr₂.2.2.2 hid₁
      refine ⟨by rw [hr₂.2.1, hr₁.2.1], by rw [hr₂.2.2.1, hr₁.2.2.1], fun v => ?_⟩
      by_cases hv : v = u
      · subst hv
        rw [hu₂, hu₁]
        exact not_not
      · rw [hv₂ v hv, hv₁ v hv]
    · have hc₁ : c₁ = c := hr₁.1 hid
      have hid₁ : c₁.id ≠ cid := by rw [hc₁]; exact hid
      have hc₂ : c₂ = c₁ := hr₂.1 hid₁
      rw [hc₂, hc₁]
      exact ⟨rfl, rfl, fun v => Iff.rfl⟩
  · have h₁ := toggleVote_single p cid u hs hnd
    have hs₁ : (toggleVote p cid u).allow_multiple_votes = false := by
      rw [toggleVote_allow_multiple]; exact hs
    have h₂ := toggleVote_single (toggleVote p cid u) cid u hs₁ hnd₁
    have hpq : ∀ (c c₁ : Choice),
        (c₁.id = c.id ∧ c₁.text = c.text ∧
          (u ∈ c₁.voters ↔ (c.id = cid ∧ p.alreadyVoted cid u = false)) ∧
          (∀ v, v ≠ u → (v ∈ c₁.voters ↔ v ∈ c.voters))) →
        ((c₁.id = cid ∧ u ∈ c₁.voters) ↔
          (c.id = cid ∧ p.alreadyVoted cid u = false)) := by
      rintro c c₁ ⟨hid₁, -, hu₁, -⟩
      constructor
      · rintro ⟨-, hu⟩
        exact hu₁.mp hu
      · rintro ⟨hcid, haf⟩
        exact ⟨by rw [hid₁, hcid], hu₁.mpr ⟨hcid, haf⟩⟩
    have ha₂ : ((toggleVote p cid u).alreadyVoted cid u = true) ↔
        ((∃ c ∈ p.choices, c.id = cid) ∧ p.alreadyVoted cid u = false) := by
      rw [alreadyVoted_iff]
      refine (exists_iff_of_forall₂
        (fun c => c.id = cid ∧ p.alreadyVoted cid u = false)
        (fun c₁ => c₁.id = cid ∧ u ∈ c₁.voters) h₁ hpq).trans ?_
      constructor
      · rintro ⟨c, hc, hcid, haf⟩
        exact ⟨⟨c, hc, hcid⟩, haf⟩
      · rintro ⟨⟨c, hc, hcid⟩, haf⟩
        exact ⟨c, hc, hcid, haf⟩
    refine forall₂_comp_mem h₁ h₂ ?_
    rintro c c₁ c₂ hc hr₁ hr₂
    obtain ⟨hid₁, htext₁, hu₁, hv₁⟩ := hr₁
    obtain ⟨hid₂, htext₂, hu₂, hv₂⟩ := hr₂
    refine ⟨by rw [hid₂, hid₁], by rw [htext₂, htext₁], fun v => ?_⟩
    by_cases hv : v = u
    · subst hv
      rw [hu₂, hid₁]
      by_cases hid : c.id = cid
      · have hE : (∃ c₀ ∈ p.choices, c₀.id = cid) := ⟨c, hc, hid⟩
        have hmem := alreadyVoted_iff_mem v hnd hc hid
        simp only [hid, eq_self_iff_true, true_and]
        constructor
        · intro ha₂f
          cases hav : p.alreadyVoted cid v with
          | true => exact hmem.mp hav
          | false =>
            exact absurd (ha₂.mpr ⟨hE, hav⟩) (by rw [ha₂f]; exact Bool.false_ne_true)
        · intro hvc
          cases ha₂v : (toggleVote p cid v).alreadyVoted cid v with
          | false => rfl
          | true =>
            obtain ⟨-, haf⟩ := ha₂.mp ha₂v
            exact absurd (hmem.mpr hvc) (by rw [haf]; exact Bool.false_ne_true)
      · simp only [hid, false_and, false_iff]
        exact hclean c hc hid
    · rw [hv₂ v hv, hv₁ v hv]

/-- A single-vote poll in which `u1` currently votes the toggled choice. -/
def pollW3 : Poll :=
  { id := 4, question := "q", choices := [⟨41, "A", ["u1"]⟩, ⟨42, "B", ["u2"]⟩],
    creator_id := "creator", allow_multiple_votes := false,
    allow_others_to_add_options := false, messages := [], channels := [] }

/-- Witness for the amended C3 at a concrete poll. -/
theorem claim_C3_toggle_idempotence_amended_witness :
    List.Forall₂ (fun c c'' => c''.id = c.id ∧ c''.text = c.text ∧
        (∀ v, v ∈ c''.voters ↔ v ∈ c.voters))
      pollW3.choices (toggleVote (toggleVote pollW3 41 "u1") 41 "u1").choices :=
  claim_C3_toggle_idempotence_amended pollW3 41 "u1" (by decide)
    (Or.inr ⟨rfl, by decide⟩)

/-! ## Claim C4 -/

theorem roundHalfEvenFrac_nearest (n d : Nat) (hd0 : 0 < d) :
    |(roundHalfEvenFrac n d : ℚ) - (n : ℚ) / d| ≤ 1/2 := by
  have hdq : (0:ℚ) < (d:ℚ) := by exact_mod_cast hd0
  have hmod : ((d * (n / d) + n % d : Nat) : ℚ) = (n : ℚ) := by
    exact_mod_cast congrArg (fun k : Nat => (k : ℚ)) (Nat.div_add_mod n d)
  have hrd : n % d < d := Nat.mod_lt n hd0
  have key : (n : ℚ) / d - ((n / d : Nat) : ℚ) = ((n % d : Nat) : ℚ) / d := by
    rw [eq_div_iff hdq.ne', sub_mul, div_mul_cancel₀ _ hdq.ne']
    push_cast at hmod ⊢
    linarith [hmod]
  have hr0 : (0:ℚ) ≤ ((n % d : Nat) : ℚ) / d := by positivity
  have hr1 : ((n % d : Nat) : ℚ) / d < 1 := by
    rw [div_lt_one hdq]
    exact_mod_cast hrd
  unfold roundHalfEvenFrac
  split_ifs with h1 h2 h3
  · have hlt : ((n % d : Nat) : ℚ) / d < 1/2 := by
      rw [div_lt_div_iff₀ hdq (by norm_num : (0:ℚ) < 2)]
      have : ((2 * (n % d) : Nat) : ℚ) < (d : ℚ) := by exact_mod_cast h1
      push_cast at this
      linarith
    rw [abs_sub_comm, show (n : ℚ) / d - ((n / d : Nat) : ℚ) = ((n % d : Nat) : ℚ) / d
      from key, abs_of_nonneg hr0]
    linarith
  · have hgt : 1/2 < ((n % d : Nat) : ℚ) / d := by
      rw [div_lt_div_iff₀ (by norm_num : (0:ℚ) < 2) hdq]
      have : (d : ℚ) < ((2 * (n % d) : Nat) : ℚ) := by exact_mod_cast h2
      push_cast at this
      linarith
    have hval : ((n / d + 1 : Nat) : ℚ) - (n : ℚ) / d = 1 - ((n % d : Nat) : ℚ) / d := by
      push_cast
      push_cast at key
      linarith
    rw [hval, abs_of_nonneg (by linarith)]
    linarith
  · have heqh : ((n % d : Nat) : ℚ) / d = 1/2 := by
      rw [div_eq_div_iff hdq.ne' (by norm_num : (2:ℚ) ≠ 0)]
      have : ((2 * (n % d) : Nat) : ℚ) = (d : ℚ) := by
        exact_mod_cast le_antisymm (Nat.le_of_not_lt h2) (Nat.le_of_not_lt h1)
      push_cast at this
      linarith
    rw [abs_sub_comm, show (n : ℚ) / d - ((n / d : Nat) : ℚ) = ((n % d : Nat) : ℚ) / d
      from key, abs_of_nonneg hr0, heqh]
  · have heqh : ((n % d : Nat) : ℚ) / d = 1/2 := by
      rw [div_eq_div_iff hdq.ne' (by norm_num : (2:ℚ) ≠ 0)]
      have : ((2 * (n % d) : Nat) : ℚ) = (d : ℚ) := by
        exact_mod_cast le_antisymm (Nat.le_of_not_lt h2) (Nat.le_of_not_lt h1)
      push_cast at this
      linarith
    have hval : ((n / d + 1 : Nat) : ℚ) - (n : ℚ) / d = 1 - ((n % d : Nat) : ℚ) / d := by
      push_cast
      push_cast at key
      linarith
    rw [hval, heqh, abs_of_nonneg (by norm_num)]
    norm_num

theorem displayPercentage_nearest (count base : Nat) (hb : 0 < base) :
    |(displayPercentage count base : ℚ) - (count : ℚ) / base * 100| ≤ 1/2 := by
  unfold displayPercentage
  rw [if_pos hb]
  have hcast : (count : ℚ) / base * 100 = ((count * 100 : Nat) : ℚ) / base := by
    push_cast
    ring
  rw [hcast]
  exact roundHalfEvenFrac_nearest (count * 100) base hb

/-- The rendered choice sections of `build_poll_blocks`, computed. -/
theorem choiceSections_build (p : Poll) (tv tr : Nat) :
    choiceSections (build_poll_blocks p tv tr) =
      p.choices.enum.map (fun it =>
        { emoji := emojiFor it.1
          text := it.2.text
          voteCount := it.2.voters.length
          percentage := displayPercentage it.2.voters.length
            (if p.allow_multiple_votes then tv else tr)
          mentions := it.2.voters
          buttonValue := it.2.id }) := by
  unfold build_poll_blocks choiceSections
  cases hm : p.allow_multiple_votes <;> cases ho : p.allow_others_to_add_options <;>
    simp [hm, ho, List.filterMap_append, List.filterMap_map] <;>
    exact congrFun (List.filterMap_eq_map _) _

theorem toFinset_flatMap_voters (cs : List Choice) :
    (cs.flatMap (fun c => c.voters)).toFinset =
      cs.foldr (fun (c : Choice) (acc : Finset String) => c.voters.toFinset ∪ acc) ∅ := by
  induction cs with
  | nil => simp
  | cons c rest ih => simp [List.toFinset_append, ih]

/-- C4: `total_votes` is the sum of the choices' voter-set sizes,
`total_respondents` is the size of the union of all voters, each rendered
choice section carries the display rounding of `count / base * 100` with the
base chosen by the multi-vote flag, every displayed percentage is within one
half of the exact value when the base is positive, and it is 0 when the base
is 0 (no division by zero). -/
theorem claim_C4_aggregation (p : Poll) (hnd : ∀ c ∈ p.choices, c.voters.Nodup) :
    totalIndividualVotesCast p = (p.choices.map (fun c => c.voters.toFinset.card)).sum ∧
    totalRespondents p =
      (p.choices.foldr (fun (c : Choice) (acc : Finset String) =>
        c.voters.toFinset ∪ acc) ∅).card ∧
    choiceSections (build_poll_blocks p (totalIndividualVotesCast p) (totalRespondents p)) =
      p.choices.enum.map (fun it =>
        { emoji := emojiFor it.1
          text := it.2.text
          voteCount := it.2.voters.length
          percentage := displayPercentage it.2.voters.length
            (if p.allow_multiple_votes then totalIndividualVotesCast p
             else totalRespondents p)
          mentions := it.2.voters
          buttonValue := it.2.id }) ∧
    (∀ count base : Nat, 0 < base →
      |(displayPercentage count base : ℚ) - (count : ℚ) / base * 100| ≤ 1/2) ∧
    (∀ count : Nat, displayPercentage count 0 = 0) := by
  refine ⟨?_, ?_, choiceSections_build p _ _,
    fun count base hb => displayPercentage_nearest count base hb,
    fun count => by simp [displayPercentage]⟩
  · unfold totalIndividualVotesCast
    congr 1
    refine List.map_congr_left ?_
    intro c hc
    rw [List.toFinset_card_of_nodup (hnd c hc)]
  · unfold totalRespondents uniqueVoters
    rw [← toFinset_flatMap_voters, List.card_toFinset]

/-- The spec's multi-vote aggregation example. -/
def pollW4 : Poll :=
  { id := 5, question := "q", choices := [⟨51, "X", ["A", "B"]⟩, ⟨52, "Y", ["B"]⟩],
    creator_id := "creator", allow_multiple_votes := true,
    allow_others_to_add_options := false, messages := [], channels := [] }

/-- Witness for C4 at the spec's example: voter sets of sizes 2 and 1 give
totals 3 and 2 and displayed percentages 67 and 33. -/
theorem claim_C4_aggregation_witness :
    totalIndividualVotesCast pollW4 = 3 ∧ totalRespondents pollW4 = 2 ∧
    (choiceSections (build_poll_blocks pollW4 (totalIndividualVotesCast pollW4)
        (totalRespondents pollW4))).map ChoiceSection.percentage = [67, 33] ∧
    totalIndividualVotesCast pollW4 =
      (pollW4.choices.map (fun c => c.voters.toFinset.card)).sum :=
  ⟨by decide, by decide, by decide, (claim_C4_aggregation pollW4 (by decide)).1⟩

/-! ## Claim C5 -/

/-- A single-vote poll posted to channel `C` in which `u1` votes choice 61. -/
def pollX5 : Poll :=
  { id := 6, question := "q", choices := [⟨61, "A", ["u1"]⟩],
    creator_id := "creator", allow_multiple_votes := false,
    allow_others_to_add_options := false,
    messages := [⟨some "C", some "111.222", ""⟩], channels := ["C"] }

/-- C5 counterexample: a vote click whose choice id is not one of the found
poll's choices is not a no-op — in single-vote mode it still pulls the user
from every choice, so `u1`'s existing vote is removed. -/
theorem claim_C5_notfound_counterexample :
    (handle_vote [pollX5] "C" "111.222" 999 "u1").1 ≠ [pollX5] := by decide

/-- C5 amended: when the poll cannot be found from the message context the
handler leaves the collection unchanged but answers HTTP 404 (an error
response, not a success acknowledgment); when the poll is found but the
choice id is not among its choices the handler answers HTTP 200 and, in
multi-vote mode, changes nothing, while in single-vote mode it removes the
user from every choice's voter set of that poll (adding them nowhere) and
leaves all other polls and users untouched. -/
theorem claim_C5_notfound_amended (db : List Poll) (channel ts : String)
    (cid : Nat) (u : String) :
    (db.find? (fun p => p.messageMatches channel ts) = none →
      handle_vote db channel ts cid u = (db, 404)) ∧
    (∀ p, db.find? (fun p => p.messageMatches channel ts) = some p →
      (db.map Poll.id).Nodup →
      (∀ c ∈ p.choices, c.id ≠ cid) →
      (handle_vote db channel ts cid u).2 = 200 ∧
      (p.allow_multiple_votes = true → (handle_vote db channel ts cid u).1 = db) ∧
      (p.allow_multiple_votes = false →
        List.Forall₂ (fun q q' =>
          (q.id ≠ p.id → q' = q) ∧
          (q.id = p.id → List.Forall₂ (fun c c' =>
              c'.id = c.id ∧ c'.text = c.text ∧ u ∉ c'.voters ∧
              (∀ v, v ≠ u → (v ∈ c'.voters ↔ v ∈ c.voters)))
            q.choices q'.choices))
          db (handle_vote db channel ts cid u).1)) := by
  constructor
  · intro hnone
    unfold handle_vote
    rw [hnone]
  · intro p hfind hnd hnochoice
    have hpmem : p ∈ db := List.mem_of_find?_eq_some hfind
    have hvote : handle_vote db channel ts cid u =
        (updateById db p.id (fun q => toggleVote q cid u), 200) := by
      unfold handle_vote
      rw [hfind]
    have hna : p.alreadyVoted cid u = false := by
      cases hav : p.alreadyVoted cid u with
      | false => rfl
      | true =>
        obtain ⟨c, hc, hcid, -⟩ := alreadyVoted_iff.mp hav
        exact absurd hcid (hnochoice c hc)
    have hqp : ∀ q ∈ db, q.id = p.id → q = p := fun q hq hid =>
      List.inj_on_of_nodup_map hnd hq hpmem hid
    refine ⟨by rw [hvote], ?_, ?_⟩
    · intro hm
      have htog : toggleVote p cid u = p := by
        unfold toggleVote
        simp only [hm, hna, Bool.not_true, Bool.false_eq_true, if_false]
        show ({ p with choices := updateFirstChoice p.choices cid _ } : Poll) = p
        rw [show updateFirstChoice p.choices cid
            (fun c => if u ∈ c.voters then c else { c with voters := c.voters ++ [u] }) =
            p.choices from updateFirstBy_eq_self _ _ _ ?_]
        · intro c hc hpc
          exact absurd (of_decide_eq_true hpc) (hnochoice c hc)
      rw [hvote]
      show updateById db p.id (fun q => toggleVote q cid u) = db
      unfold updateById
      refine updateFirstBy_eq_self _ _ _ ?_
      intro q hq hpq
      rw [hqp q hq (of_decide_eq_true hpq), htog]
    · intro hs
      have htog : toggleVote p cid u = p.pullAllVoters u := by
        unfold toggleVote
        simp only [hs, hna, Bool.not_false, if_true]
        show ({ p.pullAllVoters u with
            choices := updateFirstChoice (p.pullAllVoters u).choices cid _ } : Poll) =
          p.pullAllVoters u
        rw [show updateFirstChoice (p.pullAllVoters u).choices cid
            (fun c => { c with voters := c.voters ++ [u] }) =
            (p.pullAllVoters u).choices from updateFirstBy_eq_self _ _ _ ?_]
        · intro c hc hpc
          obtain ⟨c₀, hc₀, rfl⟩ := List.mem_map.mp hc
          exact absurd (of_decide_eq_true hpc) (hnochoice c₀ hc₀)
      rw [hvote]
      show List.Forall₂ _ db (updateById db p.id (fun q => toggleVote q cid u))
      unfold updateById
      have hpw : db.Pairwise (fun a b =>
          (fun q => decide (q.id = p.id)) a = true →
          (fun q => decide (q.id = p.id)) b = false) := by
        refine (List.pairwise_map.mp hnd).imp ?_
        intro a b hab ha
        exact decide_eq_false (fun hb => hab ((of_decide_eq_true ha).trans hb.symm))
      refine forall₂_imp_mem
        (forall₂_updateFirstBy (fun q => decide (q.id = p.id))
          (fun q => toggleVote q cid u) db hpw) ?_
      rintro q q' hq ⟨hyes, hno⟩
      refine ⟨fun hne => hno (decide_eq_false hne), fun hid => ?_⟩
      have hq'' : q' = toggleVote p cid u := by
        rw [hyes (decide_eq_true hid), hqp q hq hid]
      rw [hq'', htog, hqp q hq hid]
      refine List.Forall₂.imp ?_ (forall₂_pullAllVoters p u)
      rintro c c' rfl
      refine ⟨rfl, rfl, ?_, fun v hv => ?_⟩
      · simp [mem_pullVoter]
      · simp [mem_pullVoter, hv]

/-- A multi-vote poll used to witness the amended C5. -/
def pollW5 : Poll :=
  { id := 7, question := "q", choices := [⟨71, "A", ["u1"]⟩],
    creator_id := "creator", allow_multiple_votes := true,
    allow_others_to_add_options := false,
    messages := [⟨some "C9", some "1.2", ""⟩], channels := ["C9"] }

/-- Witness for the amended C5: an unknown choice id on a found multi-vote
poll is acknowledged with HTTP 200 and changes nothing. -/
theorem claim_C5_notfound_amended_witness :
    (handle_vote [pollW5] "C9" "1.2" 999 "zoe").2 = 200 ∧
    (handle_vote [pollW5] "C9" "1.2" 999 "zoe").1 = [pollW5] :=
  have h := (claim_C5_notfound_amended [pollW5] "C9" "1.2" 999 "zoe").2 pollW5
    (by decide) (by decide) (by decide)
  ⟨h.1, h.2.1 rfl⟩

/-! ## Claim C6 -/

/-- A poll created by `alice`, used in the C6 counterexample. -/
def pollX6 : Poll :=
  { id := 8, question := "q", choices := [⟨81, "A", []⟩],
    creator_id := "alice", allow_multiple_votes := false,
    allow_others_to_add_options := false,
    messages := [⟨some "C", some "5.5", ""⟩], channels := ["C"] }

/-- C6 counterexample: a delete confirmation by a non-creator is answered
with HTTP 403 — a hard error surfaced to the actor, not a silent success
no-op. -/
theorem claim_C6_unauthorized_counterexample :
    (handle_delete_poll_confirmed [pollX6] 8 "bob").2.2 ≠ 200 := by decide

/-- C6 amended: an edit submission or a delete confirmation whose requester
is not the poll's creator (or whose poll is missing) mutates nothing — the
collection is unchanged and no `chat.delete` call is issued — but the
response is not silent: the edit answers with an inline authorization error
and the delete confirmation with HTTP 403. -/
theorem claim_C6_unauthorized_no_mutation (db : List Poll) (pid : Nat) (uid : String)
    (state : ViewState) (freshChoiceId : Nat → Nat)
    (h : ∀ p, db.find? (fun q => decide (q.id = pid)) = some p → p.creator_id ≠ uid) :
    handle_edit_poll db pid uid state freshChoiceId = (db, EditResp.authError) ∧
    handle_delete_poll_confirmed db pid uid = (db, [], 403) := by
  constructor
  · unfold handle_edit_poll
    cases hf : db.find? (fun q => decide (q.id = pid)) with
    | none => rfl
    | some p => exact if_pos (h p hf)
  · unfold handle_delete_poll_confirmed
    cases hf : db.find? (fun q => decide (q.id = pid)) with
    | none => rfl
    | some p => exact if_pos (h p hf)

/-- A poll created by `carol`, used to witness the amended C6. -/
def pollW6 : Poll :=
  { id := 9, question := "q", choices := [⟨91, "A", ["u1"]⟩],
    creator_id := "carol", allow_multiple_votes := false,
    allow_others_to_add_options := false,
    messages := [⟨some "C", some "6.6", ""⟩], channels := ["C"] }

/-- Witness for the amended C6: `mallory` can neither edit nor delete
`carol`'s poll, and gets the authorization error and HTTP 403. -/
theorem claim_C6_unauthorized_no_mutation_witness :
    handle_edit_poll [pollW6] 9 "mallory" [] (fun i => i) =
      ([pollW6], EditResp.authError) ∧
    handle_delete_poll_confirmed [pollW6] 9 "mallory" = ([pollW6], [], 403) :=
  claim_C6_unauthorized_no_mutation [pollW6] 9 "mallory" [] (fun i => i)
    (fun p hp => by
      have h2 : ([pollW6].find? (fun q => decide (q.id = 9))) = some pollW6 := by decide
      rw [h2] at hp
      rw [← Option.some.inj hp]
      decide)

/-! ## Claim C7 -/

theorem find?_eq_some_split {db : List Poll} {pid : Nat} {p : Poll}
    (h : db.find? (fun q => decide (q.id = pid)) = some p) :
    ∃ l₁ l₂, db = l₁ ++ p :: l₂ ∧ (∀ q ∈ l₁, q.id ≠ pid) ∧
      (∀ f, updateById db pid f = l₁ ++ f p :: l₂) ∧ p.id = pid := by
  induction db with
  | nil => cases h
  | cons x rest ih =>
    by_cases hx : x.id = pid
    · rw [List.find?_cons_of_pos _ (by simpa using hx)] at h
      obtain rfl : x = p := Option.some.inj h
      refine ⟨[], rest, rfl, by simp, fun f => ?_, hx⟩
      show updateFirstBy _ f (x :: rest) = [] ++ f x :: rest
      simp [updateFirstBy, hx]
    · rw [List.find?_cons_of_neg _ (by simpa using hx)] at h
      obtain ⟨l₁, l₂, hdb, hl₁, hupd, hpid⟩ := ih h
      refine ⟨x :: l₁, l₂, by simp [hdb], ?_, fun f => ?_, hpid⟩
      · intro q hq
        rcases List.mem_cons.mp hq with rfl | hq2
        · exact hx
        · exact hl₁ q hq2
      · show updateFirstBy _ f (x :: rest) = (x :: l₁) ++ f p :: l₂
        simp only [updateFirstBy, hx, decide_False, Bool.false_eq_true, if_false]
        rw [show updateFirstBy (fun q => decide (q.id = pid)) f rest = l₁ ++ f p :: l₂
          from hupd f]
        rfl

theorem rebuildChoices_forall₂ (old : List Choice) (newTexts : List String)
    (fresh : Nat → Nat) (hlen : newTexts.length = old.length) :
    List.Forall₂ (fun oc nc => nc.id = oc.id ∧ nc.voters = oc.voters)
      old (rebuildChoices old newTexts fresh) := by
  rw [List.forall₂_iff_get]
  constructor
  · simp [rebuildChoices, List.enum_eq_enumFrom, hlen]
  · intro i h₁ h₂
    simp only [rebuildChoices, List.enum_eq_enumFrom, List.get_eq_getElem,
      List.getElem_map, List.getElem_enumFrom, Nat.zero_add]
    have hi : i < old.length := by
      simp only [rebuildChoices, List.enum_eq_enumFrom, List.length_map,
        List.enumFrom_length] at h₂
      rw [← hlen]
      exact h₂
    rw [List.getElem?_eq_getElem hi]
    exact ⟨rfl, rfl⟩

theorem rebuildChoices_map_text (old : List Choice) (newTexts : List String)
    (fresh : Nat → Nat) :
    (rebuildChoices old newTexts fresh).map Choice.text = newTexts := by
  unfold rebuildChoices
  rw [List.map_map]
  have hpt : ∀ it ∈ newTexts.enum,
      (Choice.text ∘ (fun it : Nat × String =>
        match old[it.1]? with
        | some oc => { id := oc.id, text := it.2, voters := oc.voters }
        | none => { id := fresh it.1, text := it.2, voters := [] })) it = it.2 := by
    intro it _
    cases hoi : old[it.1]? <;> simp [hoi]
  rw [List.map_congr_left hpt, List.enum_eq_enumFrom, List.enumFrom_map_snd]

theorem find?_voters_eq_of_forall₂ {l₁ l₂ : List Choice}
    (h : List.Forall₂ (fun oc nc => nc.id = oc.id ∧ nc.voters = oc.voters) l₁ l₂)
    (cid : Nat) :
    Option.map Choice.voters (l₂.find? (fun c => decide (c.id = cid))) =
      Option.map Choice.voters (l₁.find? (fun c => decide (c.id = cid))) := by
  induction h with
  | nil => rfl
  | cons hab htail ih =>
    obtain ⟨hid, hvot⟩ := hab
    rename_i a b tail₁ tail₂ -- name the head elements
    by_cases ha : a.id = cid
    · rw [List.find?_cons_of_pos _ (by simp [hid, ha]),
        List.find?_cons_of_pos _ (by simpa using ha)]
      simp [hvot]
    · rw [List.find?_cons_of_neg _ (by simp [hid, ha]),
        List.find?_cons_of_neg _ (by simpa using ha)]
      exact ih

/-- C7: an edit submission by the creator whose extracted choice texts have
the same length as the current choice list keeps, position by position, each
choice's stable id and voter set (only its text changes to the newly
extracted text), so a vote button referencing a choice id still resolves to
a choice with the same voter set; all other documents are untouched. -/
theorem claim_C7_stable_choice_identity (db : List Poll) (pid : Nat) (uid : String)
    (state : ViewState) (fresh : Nat → Nat) (p : Poll)
    (hfind : db.find? (fun q => decide (q.id = pid)) = some p)
    (hcreator : p.creator_id = uid)
    (hlen : (extract_choices state).length = p.choices.length) :
    (handle_edit_poll db pid uid state fresh).2 = EditResp.ok ∧
    ∃ l₁ l₂ p2, db = l₁ ++ p :: l₂ ∧
      (handle_edit_poll db pid uid state fresh).1 = l₁ ++ p2 :: l₂ ∧
      List.Forall₂ (fun oc nc => nc.id = oc.id ∧ nc.voters = oc.voters)
        p.choices p2.choices ∧
      p2.choices.map Choice.text = extract_choices state ∧
      (∀ cid, Option.map Choice.voters
          (p2.choices.find? (fun c => decide (c.id = cid))) =
        Option.map Choice.voters (p.choices.find? (fun c => decide (c.id = cid)))) := by
  obtain ⟨l₁, l₂, hdb, hl₁, hupd, hpid⟩ := find?_eq_some_split hfind
  have hne : ¬p.creator_id ≠ uid := fun hne => hne hcreator
  have hhe : handle_edit_poll db pid uid state fresh =
      (updateById db pid (fun _ =>
        { p with
          question := (questionValue state).getD ""
          choices := rebuildChoices p.choices (extract_choices state) fresh
          allow_others_to_add_options :=
            "allow_others_to_add" ∈ selectedSettingValues state }), EditResp.ok) := by
    unfold handle_edit_poll
    rw [hfind]
    exact if_neg hne
  have hforall := rebuildChoices_forall₂ p.choices (extract_choices state) fresh hlen
  refine ⟨by rw [hhe], l₁, l₂,
    { p with
      question := (questionValue state).getD ""
      choices := rebuildChoices p.choices (extract_choices state) fresh
      allow_others_to_add_options :=
        "allow_others_to_add" ∈ selectedSettingValues state },
    hdb, ?_, hforall, rebuildChoices_map_text p.choices (extract_choices state) fresh,
    fun cid => find?_voters_eq_of_forall₂ hforall cid⟩
  rw [hhe]
  exact hupd _

/-- A poll of `carol` with one choice and two voters, used to witness C7. -/
def pollW7 : Poll :=
  { id := 10, question := "Lunch?", choices := [⟨101, "Pizza", ["u1", "u2"]⟩],
    creator_id := "carol", allow_multiple_votes := false,
    allow_others_to_add_options := false,
    messages := [⟨some "C", some "7.7", ""⟩], channels := ["C"] }

/-- The edit-modal state renaming the only choice, used to witness C7. -/
def stateW7 : ViewState :=
  [("question_block", BlockData.textInput "question_input" (some "Lunch?")),
   ("choice_block_0", BlockData.textInput "choice_input_0" (some "Pizza!"))]

/-- Witness for C7 at a concrete poll and edit state. -/
theorem claim_C7_stable_choice_identity_witness :
    (handle_edit_poll [pollW7] 10 "carol" stateW7 (fun i => 900 + i)).2 = EditResp.ok ∧
    ∃ l₁ l₂ p2, [pollW7] = l₁ ++ pollW7 :: l₂ ∧
      (handle_edit_poll [pollW7] 10 "carol" stateW7 (fun i => 900 + i)).1 =
        l₁ ++ p2 :: l₂ ∧
      List.Forall₂ (fun oc nc => nc.id = oc.id ∧ nc.voters = oc.voters)
        pollW7.choices p2.choices ∧
      p2.choices.map Choice.text = extract_choices stateW7 ∧
      (∀ cid, Option.map Choice.voters
          (p2.choices.find? (fun c => decide (c.id = cid))) =
        Option.map Choice.voters (pollW7.choices.find? (fun c => decide (c.id = cid)))) :=
  claim_C7_stable_choice_identity [pollW7] 10 "carol" stateW7 (fun i => 900 + i) pollW7
    (by decide) rfl (by decide)

/-! ## Claim C8 -/

theorem runMessageUpdates_blocks (post : UpdateRequest → PostOutcome)
    (blocks : List Block) (text : String) :
    ∀ (msgs : List MessageRef) (req : UpdateRequest),
      req ∈ runMessageUpdates post blocks text msgs →
      req.blocks = blocks ∧ req.text = text
  | [], req, h => by cases h
  | m :: rest, req, h => by
    rcases m with ⟨mch, mts, mperm⟩
    cases mch with
    | none =>
      exact runMessageUpdates_blocks post blocks text rest req
        (by simpa [runMessageUpdates] using h)
    | some ch =>
      cases mts with
      | none =>
        exact runMessageUpdates_blocks post blocks text rest req
          (by simpa [runMessageUpdates] using h)
      | some t =>
        simp only [runMessageUpdates] at h
        split_ifs at h with hcond hraised
        · rcases List.mem_singleton.mp h with rfl
          exact ⟨rfl, rfl⟩
        · rcases List.mem_cons.mp h with rfl | h2
          · exact ⟨rfl, rfl⟩
          · exact runMessageUpdates_blocks post blocks text rest req h2
        · exact runMessageUpdates_blocks post blocks text rest req h

theorem runMessageUpdates_complete (post : UpdateRequest → PostOutcome)
    (blocks : List Block) (text : String) (msgs : List MessageRef)
    (hnr : ∀ req, post req ≠ PostOutcome.raised) :
    ∀ m ∈ msgs, ∀ ch t, m.channel = some ch → m.ts = some t → ch ≠ "" → t ≠ "" →
      ({ channel := ch, ts := t, blocks := blocks, text := text } : UpdateRequest) ∈
        runMessageUpdates post blocks text msgs := by
  induction msgs with
  | nil =>
    intro m hm
    cases hm
  | cons m0 rest ih =>
    intro m hm ch t hch ht hch0 ht0
    rcases List.mem_cons.mp hm with rfl | hm2
    · simp only [runMessageUpdates, hch, ht]
      rw [if_pos ⟨hch0, ht0⟩, if_neg (hnr _)]
      exact List.mem_cons_self _ _
    · have hrec := ih m hm2 ch t hch ht hch0 ht0
      rcases m0 with ⟨m0ch, m0ts, m0p⟩
      cases m0ch with
      | none => simpa [runMessageUpdates] using hrec
      | some ch0 =>
        cases m0ts with
        | none => simpa [runMessageUpdates] using hrec
        | some t0 =>
          simp only [runMessageUpdates]
          by_cases hcond : ch0 ≠ "" ∧ t0 ≠ ""
          · rw [if_pos hcond, if_neg (hnr _)]
            exact List.mem_cons_of_mem _ hrec
          · rw [if_neg hcond]
            exact hrec

/-- A poll broadcast to two channels, used in the C8 counterexample. -/
def pollX8 : Poll :=
  { id := 11, question := "q8", choices := [⟨111, "A", []⟩],
    creator_id := "creator", allow_multiple_votes := false,
    allow_others_to_add_options := false,
    messages := [⟨some "X", some "t1", ""⟩, ⟨some "Y", some "t2", ""⟩],
    channels := ["X", "Y"] }

/-- C8 counterexample: when the `chat.update` call for the first message
raises an exception, the second recorded message — although it has a channel
and a timestamp — never receives an update attempt (the loop has no
per-message exception handling). -/
theorem claim_C8_fanout_counterexample :
    (update_all_poll_messages [pollX8] 11 (fun _ => PostOutcome.raised)).map
        (fun r => (r.channel, r.ts)) = [("X", "t1")] ∧
    pollX8.messages.map (fun m => (m.channel, m.ts)) =
      [(some "X", some "t1"), (some "Y", some "t2")] := by
  decide

/-- C8 amended: every `chat.update` call issued by the propagation loop
carries the same single pre-built latest rendering, and provided no call
raises an exception (API-level failures are mere responses the source never
inspects), every recorded message entry with a truthy channel and timestamp
receives an update attempt; a raised exception aborts the remaining
entries. -/
theorem claim_C8_fanout_amended (db : List Poll) (pid : Nat)
    (post : UpdateRequest → PostOutcome) (p : Poll)
    (hfind : db.find? (fun q => decide (q.id = pid)) = some p) :
    (∀ req ∈ update_all_poll_messages db pid post,
      req.blocks = build_poll_blocks p (totalIndividualVotesCast p) (totalRespondents p) ∧
      req.text = p.question) ∧
    ((∀ req, post req ≠ PostOutcome.raised) →
      ∀ m ∈ p.messages, ∀ ch t, m.channel = some ch → m.ts = some t →
        ch ≠ "" → t ≠ "" →
        ({ channel := ch, ts := t,
           blocks := build_poll_blocks p (totalIndividualVotesCast p) (totalRespondents p),
           text := p.question } : UpdateRequest) ∈
          update_all_poll_messages db pid post) := by
  have hu : update_all_poll_messages db pid post =
      runMessageUpdates post
        (build_poll_blocks p (totalIndividualVotesCast p) (totalRespondents p))
        p.question p.messages := by
    unfold update_all_poll_messages
    rw [hfind]
  rw [hu]
  exact ⟨fun req h => runMessageUpdates_blocks post _ _ p.messages req h,
    fun hnr m hm ch t hch ht hch0 ht0 =>
      runMessageUpdates_complete post _ _ p.messages hnr m hm ch t hch ht hch0 ht0⟩

/-- A poll broadcast to two channels, used to witness the amended C8. -/
def pollW8 : Poll :=
  { id := 12, question := "q", choices := [⟨121, "A", ["u1"]⟩],
    creator_id := "creator", allow_multiple_votes := false,
    allow_others_to_add_options := false,
    messages := [⟨some "X", some "t1", ""⟩, ⟨some "Y", some "t2", ""⟩],
    channels := ["X", "Y"] }

/-- Witness for the amended C8: with no raising call, the second message of
a two-channel poll receives the latest rendering. -/
theorem claim_C8_fanout_amended_witness :
    ({ channel := "Y", ts := "t2",
       blocks := build_poll_blocks pollW8 (totalIndividualVotesCast pollW8)
         (totalRespondents pollW8),
       text := pollW8.question } : UpdateRequest) ∈
      update_all_poll_messages [pollW8] 12 (fun _ => PostOutcome.ok) :=
  (claim_C8_fanout_amended [pollW8] 12 (fun _ => PostOutcome.ok) pollW8 (by decide)).2
    (fun req h => PostOutcome.noConfusion h)
    ⟨some "Y", some "t2", ""⟩ (by decide) "Y" "t2" rfl rfl (by decide) (by decide)

/-! ## Claim C9 -/

theorem handle_submit_draftDeleted_iff (pollsDb : List Poll)
    (drafts : String → Option ViewState) (userId : String) (state : ViewState)
    (joined : String → Bool) (newPollId : Nat) (freshChoiceId : Nat → Nat) :
    (handle_submit_poll pollsDb drafts userId state joined newPollId
        freshChoiceId).draftDeleted = true ↔
      ∃ pid2, (handle_submit_poll pollsDb drafts userId state joined newPollId
        freshChoiceId).resp = SubmitResp.created pid2 := by
  unfold handle_submit_poll
  dsimp only
  split_ifs <;> simp

/-- C9: a creation submission that passes field validation but targets at
least one channel the bot has not joined inserts no poll and schedules no
broadcast; instead the raw view state is upserted as the submitting user's
single draft (replacing any prior draft) and the instructional view is
returned.  Moreover, on every run of the handler the user's draft is deleted
exactly when a poll creation succeeds. -/
theorem claim_C9_draft_on_membership (pollsDb : List Poll)
    (drafts : String → Option ViewState) (userId : String) (state : ViewState)
    (joined : String → Bool) (newPollId : Nat) (freshChoiceId : Nat → Nat)
    (hq : truthyStr (questionValue state) = true)
    (hc : extract_choices state ≠ [])
    (hch : selectedChannels state ≠ [])
    (hnj : ∃ ch ∈ selectedChannels state, joined ch = false) :
    (handle_submit_poll pollsDb drafts userId state joined newPollId
        freshChoiceId).polls = pollsDb ∧
    (handle_submit_poll pollsDb drafts userId state joined newPollId
        freshChoiceId).broadcastScheduled = false ∧
    (handle_submit_poll pollsDb drafts userId state joined newPollId
        freshChoiceId).draftDeleted = false ∧
    (handle_submit_poll pollsDb drafts userId state joined newPollId
        freshChoiceId).drafts = draftsUpsert drafts userId state ∧
    (∃ nj, (handle_submit_poll pollsDb drafts userId state joined newPollId
        freshChoiceId).resp = SubmitResp.inviteRequired nj) ∧
    (∀ (pollsDb₂ : List Poll) (drafts₂ : String → Option ViewState) (userId₂ : String)
        (state₂ : ViewState) (joined₂ : String → Bool) (newPollId₂ : Nat)
        (freshChoiceId₂ : Nat → Nat),
      (handle_submit_poll pollsDb₂ drafts₂ userId₂ state₂ joined₂ newPollId₂
          freshChoiceId₂).draftDeleted = true ↔
        ∃ pid2, (handle_submit_poll pollsDb₂ drafts₂ userId₂ state₂ joined₂ newPollId₂
          freshChoiceId₂).resp = SubmitResp.created pid2) := by
  have hB : (extract_choices state).isEmpty = false := by
    cases hcc : extract_choices state with
    | nil => exact absurd hcc hc
    | cons a l => rfl
  have hC : (selectedChannels state).isEmpty = false := by
    cases hcc : selectedChannels state with
    | nil => exact absurd hcc hch
    | cons a l => rfl
  have hNJ : ((selectedChannels state).filter (fun c => !joined c)).isEmpty = false := by
    obtain ⟨ch, hchmem, hj⟩ := hnj
    have hmemf : ch ∈ (selectedChannels state).filter (fun c => !joined c) := by
      rw [List.mem_filter]
      exact ⟨hchmem, by rw [hj]; rfl⟩
    cases hf : (selectedChannels state).filter (fun c => !joined c) with
    | nil =>
      rw [hf] at hmemf
      cases hmemf
    | cons a l => rfl
  unfold handle_submit_poll
  dsimp only
  have hcond1 : (!(truthyStr (questionValue state) && !(extract_choices state).isEmpty &&
      !(selectedChannels state).isEmpty)) = false := by
    rw [hq, hB, hC]
    rfl
  have hcond2 : (!((selectedChannels state).filter (fun c => !joined c)).isEmpty) = true := by
    rw [hNJ]
    rfl
  rw [if_neg (by rw [hcond1]; exact Bool.false_ne_true), if_pos hcond2]
  exact ⟨rfl, rfl, rfl, rfl, ⟨_, rfl⟩,
    fun a b c d e f g => handle_submit_draftDeleted_iff a b c d e f g⟩

/-- A creation state targeting channels `C1` and `C2`, used to witness C9. -/
def stateW9 : ViewState :=
  [("question_block", BlockData.textInput "question_input" (some "Q?")),
   ("choice_block_0", BlockData.textInput "choice_input_0" (some "A")),
   ("channel_block", BlockData.conversations "channels_input" ["C1", "C2"])]

/-- Witness for C9: with the bot a member of `C1` but not `C2`, submission
saves the draft for `dave` and inserts nothing. -/
theorem claim_C9_draft_on_membership_witness :
    (handle_submit_poll [] (fun _ => none) "dave" stateW9
        (fun ch => decide (ch = "C1")) 500 (fun i => i)).polls = [] ∧
    (handle_submit_poll [] (fun _ => none) "dave" stateW9
        (fun ch => decide (ch = "C1")) 500 (fun i => i)).drafts "dave" = some stateW9 :=
  have h := claim_C9_draft_on_membership [] (fun _ => none) "dave" stateW9
    (fun ch => decide (ch = "C1")) 500 (fun i => i)
    (by decide) (by decide) (by decide) ⟨"C2", by decide, by decide⟩
  ⟨h.1, by
    rw [h.2.2.2.1]
    simp [draftsUpsert]⟩

/-! ## Claim C10: string comparison infrastructure -/

theorem strLtB_iff (a b : List Char) :
    strLtB a b = true ↔ List.Lex (· < ·) a b := by
  induction a generalizing b with
  | nil =>
    cases b with
    | nil =>
      constructor
      · intro h
        cases h
      · intro h
        exact absurd h (List.Lex.not_nil_right _ _)
    | cons y ys =>
      constructor
      · intro _
        exact List.Lex.nil
      · intro _
        rfl
  | cons x xs ih =>
    cases b with
    | nil =>
      constructor
      · intro h
        cases h
      · intro h
        exact absurd h (List.Lex.not_nil_right _ _)
    | cons y ys =>
      show (if x < y then true else if y < x then false else strLtB xs ys) = true ↔ _
      by_cases hxy : x < y
      · rw [if_pos hxy]
        exact ⟨fun _ => List.Lex.rel hxy, fun _ => rfl⟩
      · rw [if_neg hxy]
        by_cases hyx : y < x
        · rw [if_pos hyx]
          constructor
          · intro h
            cases h
          · intro h
            cases h with
            | cons h2 => exact absurd hyx (lt_irrefl x)
            | rel h2 => exact absurd h2 hxy
        · rw [if_neg hyx]
          have hxy2 : x = y := le_antisymm (not_lt.mp hyx) (not_lt.mp hxy)
          subst hxy2
          rw [ih ys]
          constructor
          · exact fun h => List.Lex.cons h
          · intro h
            cases h with
            | cons h2 => exact h2
            | rel h2 => exact absurd h2 (lt_irrefl x)

theorem strLeB_iff_not_lex (a b : List Char) :
    strLeB a b = true ↔ ¬ List.Lex (· < ·) b a := by
  unfold strLeB
  rw [Bool.not_eq_true']
  constructor
  · intro h hlex
    rw [(strLtB_iff b a).mpr hlex] at h
    cases h
  · intro h
    cases hv : strLtB b a with
    | false => rfl
    | true => exact absurd ((strLtB_iff b a).mp hv) h

theorem lex_char_asymm {a b : List Char}
    (h1 : List.Lex (· < ·) a b) (h2 : List.Lex (· < ·) b a) : False :=
  absurd (IsTrans.trans a b a h1 h2) (IsIrrefl.irrefl a)

theorem strLeB_total (a b : List Char) : strLeB a b = true ∨ strLeB b a = true := by
  rw [strLeB_iff_not_lex, strLeB_iff_not_lex]
  by_cases h : List.Lex (· < ·) b a
  · right
    exact fun h2 => lex_char_asymm h2 h
  · left
    exact h

theorem lex_char_trichotomy (a : List Char) : ∀ (b : List Char),
    List.Lex (· < ·) a b ∨ a = b ∨ List.Lex (· < ·) b a := by
  induction a with
  | nil =>
    intro b
    cases b with
    | nil => exact Or.inr (Or.inl rfl)
    | cons y ys => exact Or.inl List.Lex.nil
  | cons x xs ih =>
    intro b
    cases b with
    | nil => exact Or.inr (Or.inr List.Lex.nil)
    | cons y ys =>
      rcases lt_trichotomy x y with h | rfl | h
      · exact Or.inl (List.Lex.rel h)
      · rcases ih ys with h | rfl | h
        · exact Or.inl (List.Lex.cons h)
        · exact Or.inr (Or.inl rfl)
        · exact Or.inr (Or.inr (List.Lex.cons h))
      · exact Or.inr (Or.inr (List.Lex.rel h))

theorem strLeB_trans {a b c : List Char}
    (h1 : strLeB a b = true) (h2 : strLeB b c = true) : strLeB a c = true := by
  rw [strLeB_iff_not_lex] at h1 h2 ⊢
  intro hca
  rcases lex_char_trichotomy a b with hab | rfl | hba
  · exact h2 (IsTrans.trans c a b hca hab)
  · exact h2 hca
  · exact h1 hba

instance : IsTotal (String × BlockData) keyLe :=
  ⟨fun a b => strLeB_total a.1.data b.1.data⟩

instance : IsTrans (String × BlockData) keyLe :=
  ⟨fun _ _ _ h1 h2 => strLeB_trans h1 h2⟩

instance : IsTotal Nat idxKeyLe :=
  ⟨fun i j => strLeB_total (choiceBlockId i).data (choiceBlockId j).data⟩

instance : IsTrans Nat idxKeyLe :=
  ⟨fun _ _ _ h1 h2 => strLeB_trans h1 h2⟩

instance : IsTotal (String × BlockData) numKeyLe :=
  ⟨fun _ _ => Nat.le_total _ _⟩

instance : IsTrans (String × BlockData) numKeyLe :=
  ⟨fun _ _ _ h1 h2 => Nat.le_trans h1 h2⟩

theorem orderedInsert_map {α β : Type} (r : β → β → Prop) [DecidableRel r]
    (s : α → α → Prop) [DecidableRel s] (f : α → β)
    (hrs : ∀ x y, r (f x) (f y) ↔ s x y) (a : α) (l : List α) :
    (l.map f).orderedInsert r (f a) = (l.orderedInsert s a).map f := by
  induction l with
  | nil => rfl
  | cons x xs ih =>
    simp only [List.map_cons, List.orderedInsert]
    by_cases h : s a x
    · rw [if_pos ((hrs a x).mpr h), if_pos h]
      rfl
    · rw [if_neg (fun hr => h ((hrs a x).mp hr)), if_neg h, List.map_cons, ih]

theorem insertionSort_map {α β : Type} (r : β → β → Prop) [DecidableRel r]
    (s : α → α → Prop) [DecidableRel s] (f : α → β)
    (hrs : ∀ x y, r (f x) (f y) ↔ s x y) (l : List α) :
    List.insertionSort r (l.map f) = (List.insertionSort s l).map f := by
  induction l with
  | nil => rfl
  | cons x xs ih =>
    simp only [List.map_cons, List.insertionSort, ih]
    exact orderedInsert_map r s f hrs x (List.insertionSort s xs)

/-! ## Claim C10: decimal block ids and the numeric suffix key -/

theorem digitChar_ne_underscore {d : Nat} (h : d < 10) : Nat.digitChar d ≠ '_' := by
  interval_cases d <;> decide

theorem natToDecimalAux_ne_underscore :
    ∀ (fuel n : Nat), ∀ c ∈ natToDecimalAux fuel n, c ≠ '_'
  | 0, n => by
    intro c hc
    cases hc
  | fuel + 1, n => by
    intro c hc
    simp only [natToDecimalAux] at hc
    split_ifs at hc with h
    · rcases List.mem_singleton.mp hc with rfl
      exact digitChar_ne_underscore h
    · rcases List.mem_append.mp hc with h2 | h2
      · exact natToDecimalAux_ne_underscore fuel (n / 10) c h2
      · rcases List.mem_singleton.mp h2 with rfl
        exact digitChar_ne_underscore (Nat.mod_lt n (by norm_num))

theorem natToDecimal_ne_underscore (n : Nat) : ∀ c ∈ natToDecimal n, c ≠ '_' :=
  natToDecimalAux_ne_underscore (n + 1) n

theorem digitChar_toNat {d : Nat} (h : d < 10) : (Nat.digitChar d).toNat - 48 = d := by
  interval_cases d <;> decide

theorem decimalToNat_append_digit (ds : List Char) (c : Char) :
    decimalToNat (ds ++ [c]) = decimalToNat ds * 10 + (c.toNat - 48) := by
  unfold decimalToNat
  rw [List.foldl_append]
  rfl

theorem decimalToNat_natToDecimalAux :
    ∀ (fuel n : Nat), n < 10 ^ fuel → decimalToNat (natToDecimalAux fuel n) = n
  | 0, n, h => by
    have hn : n = 0 := Nat.lt_one_iff.mp (by simpa using h)
    subst hn
    rfl
  | fuel + 1, n, h => by
    simp only [natToDecimalAux]
    split_ifs with h10
    · show decimalToNat [Nat.digitChar n] = n
      show (0 * 10 + ((Nat.digitChar n).toNat - 48)) = n
      rw [Nat.zero_mul, Nat.zero_add]
      exact digitChar_toNat h10
    · have hdiv : n / 10 < 10 ^ fuel := by
        rw [Nat.div_lt_iff_lt_mul (by norm_num : 0 < 10)]
        rw [Nat.pow_succ] at h
        exact h
      rw [decimalToNat_append_digit,
        decimalToNat_natToDecimalAux fuel (n / 10) hdiv,
        digitChar_toNat (Nat.mod_lt n (by norm_num))]
      omega

theorem decimalToNat_natToDecimal (n : Nat) : decimalToNat (natToDecimal n) = n :=
  decimalToNat_natToDecimalAux (n + 1) n
    (lt_of_lt_of_le (Nat.lt_pow_self (by norm_num) n)
      (Nat.pow_le_pow_right (by norm_num) (Nat.le_succ n)))

theorem splitUnderscore_ne_nil : ∀ (cs : List Char), splitUnderscore cs ≠ []
  | [] => by simp [splitUnderscore]
  | c :: rest => by
    unfold splitUnderscore
    by_cases hc : c = '_'
    · rw [if_pos hc]
      simp
    · rw [if_neg hc]
      cases h : splitUnderscore rest <;> simp

theorem splitUnderscore_no_underscore (ds : List Char) (h : ∀ c ∈ ds, c ≠ '_') :
    splitUnderscore ds = [ds] := by
  induction ds with
  | nil => rfl
  | cons c rest ih =>
    unfold splitUnderscore
    rw [if_neg (h c (List.mem_cons_self _ _)),
      ih (fun c2 hc2 => h c2 (List.mem_cons_of_mem _ hc2))]

theorem splitUnderscore_length_ge_two :
    ∀ (cs : List Char), '_' ∈ cs → 2 ≤ (splitUnderscore cs).length
  | [], h => absurd h (List.not_mem_nil _)
  | c :: rest, h => by
    unfold splitUnderscore
    by_cases hc : c = '_'
    · rw [if_pos hc]
      have h1 : splitUnderscore rest ≠ [] := splitUnderscore_ne_nil rest
      have h2 : 1 ≤ (splitUnderscore rest).length := List.length_pos.mpr h1
      simp only [List.length_cons]
      omega
    · rw [if_neg hc]
      have hmem : '_' ∈ rest := by
        rcases List.mem_cons.mp h with h1 | h1
        · exact absurd h1.symm hc
        · exact h1
      have h2 := splitUnderscore_length_ge_two rest hmem
      cases hsp : splitUnderscore rest with
      | nil => exact absurd hsp (splitUnderscore_ne_nil rest)
      | cons g gs =>
        rw [hsp] at h2
        simp only [List.length_cons] at h2 ⊢
        omega

theorem splitUnderscore_cons_underscore (rest : List Char) :
    splitUnderscore ('_' :: rest) = [] :: splitUnderscore rest := by
  rw [splitUnderscore, if_pos rfl]

theorem splitUnderscore_cons_of_ne (c : Char) (rest : List Char) (hc : c ≠ '_') :
    splitUnderscore (c :: rest) =
      (match splitUnderscore rest with
       | [] => [[c]]
       | g :: gs => (c :: g) :: gs) := by
  rw [splitUnderscore, if_neg hc]

theorem getLast?_splitUnderscore_append :
    ∀ (xs ds : List Char), (splitUnderscore (xs ++ '_' :: ds)).getLast? =
      (splitUnderscore ds).getLast?
  | [], ds => by
    show (splitUnderscore ('_' :: ds)).getLast? = _
    rw [splitUnderscore_cons_underscore]
    cases h : splitUnderscore ds with
    | nil => exact absurd h (splitUnderscore_ne_nil ds)
    | cons g gs => rw [List.getLast?_cons_cons]
  | x :: xs, ds => by
    show (splitUnderscore (x :: (xs ++ '_' :: ds))).getLast? = _
    by_cases hx : x = '_'
    · subst hx
      rw [splitUnderscore_cons_underscore]
      cases h : splitUnderscore (xs ++ '_' :: ds) with
      | nil => exact absurd h (splitUnderscore_ne_nil _)
      | cons g gs =>
        rw [List.getLast?_cons_cons, ← h]
        exact getLast?_splitUnderscore_append xs ds
    · rw [splitUnderscore_cons_of_ne x _ hx]
      have hlen := splitUnderscore_length_ge_two (xs ++ '_' :: ds) (by simp)
      cases h : splitUnderscore (xs ++ '_' :: ds) with
      | nil => exact absurd h (splitUnderscore_ne_nil _)
      | cons g gs =>
        rw [h] at hlen
        cases gs with
        | nil => simp at hlen
        | cons g2 gs2 =>
          show ((x :: g) :: g2 :: gs2).getLast? = _
          rw [List.getLast?_cons_cons]
          have hrec := getLast?_splitUnderscore_append xs ds
          rw [h, List.getLast?_cons_cons] at hrec
          exact hrec

theorem numericSuffix_choiceBlockId (i : Nat) : numericSuffix (choiceBlockId i) = i := by
  unfold numericSuffix choiceBlockId
  show decimalToNat
      ((splitUnderscore (("choice_block_".data) ++ natToDecimal i)).getLastD []) = i
  have hsplit : "choice_block_".data = "choice_block".data ++ ['_'] := by decide
  rw [hsplit, List.append_assoc, List.singleton_append,
    List.getLastD_eq_getLast?, getLast?_splitUnderscore_append,
    splitUnderscore_no_underscore _ (natToDecimal_ne_underscore i)]
  show decimalToNat (natToDecimal i) = i
  exact decimalToNat_natToDecimal i

/-! ## C10: ordering of choice blocks -/

theorem pyStartsWith_choiceBlockId (i : Nat) :
    pyStartsWith (choiceBlockId i) "choice_block_" = true := by
  show List.isPrefixOf "choice_block_".data ("choice_block_".data ++ natToDecimal i) = true
  rw [List.isPrefixOf_iff_prefix]
  exact List.prefix_append _ _

/-- The canonical modal state holding `n` choice input blocks with block ids
`choice_block_0 .. choice_block_(n-1)`, action ids `aids` and values `vals`. -/
def canonicalChoiceState (n : Nat) (aids : Nat → String) (vals : Nat → String) : ViewState :=
  (List.range n).map (fun i => (choiceBlockId i, BlockData.textInput (aids i) (some (vals i))))

theorem sortByKey_canonical (n : Nat) (aids vals : Nat → String) :
    sortByKey (canonicalChoiceState n aids vals) =
      (lexOrderedIndices n).map (fun i =>
        (choiceBlockId i, BlockData.textInput (aids i) (some (vals i)))) := by
  unfold sortByKey canonicalChoiceState lexOrderedIndices
  exact insertionSort_map keyLe idxKeyLe
    (fun i => (choiceBlockId i, BlockData.textInput (aids i) (some (vals i))))
    (fun x y => Iff.rfl) (List.range n)

theorem extract_choices_canonical (n : Nat) (aids vals : Nat → String)
    (hvals : ∀ i, vals i ≠ "") :
    extract_choices (canonicalChoiceState n aids vals) =
      (lexOrderedIndices n).map (fun i => (vals i).trim) := by
  unfold extract_choices
  rw [sortByKey_canonical, List.filterMap_map]
  have hpt : ∀ i : Nat,
      ((fun item : String × BlockData =>
          if pyStartsWith item.1 "choice_block_" then
            match item.2.value with
            | some v => if v ≠ "" then some v.trim else none
            | none => none
          else none) ∘ (fun i =>
            (choiceBlockId i, BlockData.textInput (aids i) (some (vals i))))) i =
        some ((vals i).trim) := by
    intro i
    show (if pyStartsWith (choiceBlockId i) "choice_block_" = true then
        if vals i ≠ "" then some (vals i).trim else none
      else none) = some ((vals i).trim)
    rw [if_pos (pyStartsWith_choiceBlockId i), if_pos (hvals i)]
  rw [List.filterMap_congr (fun i _ => hpt i)]
  exact congrFun (List.filterMap_eq_map (fun i : Nat => (vals i).trim)) _

theorem lexOrderedIndices_eq_range_iff (n : Nat) :
    lexOrderedIndices n = List.range n ↔ n ≤ 10 := by
  constructor
  · intro h
    by_contra hn
    push_neg at hn
    have hs : List.Sorted idxKeyLe (List.range n) := by
      rw [← h]
      exact List.sorted_insertionSort idxKeyLe (List.range n)
    rw [List.Sorted, List.pairwise_iff_getElem] at hs
    have h2 : (2:Nat) < (List.range n).length := by
      rw [List.length_range]
      omega
    have h10 : (10:Nat) < (List.range n).length := by
      rw [List.length_range]
      omega
    have hbad := hs 2 10 h2 h10 (by omega)
    rw [List.getElem_range, List.getElem_range] at hbad
    exact absurd hbad (by decide)
  · intro h
    interval_cases n <;> decide

theorem draftChoiceBlocks_canonical (n : Nat) (aids vals : Nat → String) :
    draftChoiceBlocks (canonicalChoiceState n aids vals) =
      canonicalChoiceState n aids vals := by
  unfold draftChoiceBlocks
  have hfil : (canonicalChoiceState n aids vals).filter
      (fun item => pyStartsWith item.1 "choice_block_") =
      canonicalChoiceState n aids vals := by
    rw [List.filter_eq_self]
    intro a ha
    obtain ⟨i, hi, rfl⟩ := List.mem_map.mp ha
    exact pyStartsWith_choiceBlockId i
  rw [hfil]
  refine List.Sorted.insertionSort_eq ?_
  show List.Pairwise numKeyLe (canonicalChoiceState n aids vals)
  unfold canonicalChoiceState
  rw [List.pairwise_map]
  refine (List.pairwise_le_range n).imp ?_
  intro i j hij
  show numericSuffix (choiceBlockId i) ≤ numericSuffix (choiceBlockId j)
  rw [numericSuffix_choiceBlockId, numericSuffix_choiceBlockId]
  exact hij

/-- C10: on a modal state holding `n` choice input blocks
`choice_block_0 .. choice_block_(n-1)` with non-empty values,
`_extract_choices` returns the (trimmed) values in the order given by the
code-point-lexicographic comparison of the block-id strings; that order is
the numeric input-index order `0 .. n-1` exactly when `n ≤ 10`; and the
draft-restoring path of `get_create_poll_modal` orders the choice blocks by
their numeric index (the block-id suffix parsed with `int`), which is the
input-index order for every `n`. -/
theorem claim_C10_choice_block_ordering (n : Nat) (aids vals : Nat → String)
    (hvals : ∀ i, vals i ≠ "") :
    (extract_choices (canonicalChoiceState n aids vals) =
        (lexOrderedIndices n).map (fun i => (vals i).trim))
    ∧ (lexOrderedIndices n = List.range n ↔ n ≤ 10)
    ∧ (draftChoiceBlocks (canonicalChoiceState n aids vals) =
        canonicalChoiceState n aids vals)
    ∧ (∀ i : Nat, numericSuffix (choiceBlockId i) = i) :=
  ⟨extract_choices_canonical n aids vals hvals,
   lexOrderedIndices_eq_range_iff n,
   draftChoiceBlocks_canonical n aids vals,
   numericSuffix_choiceBlockId⟩

theorem claim_C10_choice_block_ordering_witness :
    (extract_choices (canonicalChoiceState 11 (fun _ => "a") (fun _ => " v ")) =
        (lexOrderedIndices 11).map (fun _ => " v ".trim))
    ∧ (lexOrderedIndices 11 = List.range 11 ↔ 11 ≤ 10)
    ∧ (draftChoiceBlocks (canonicalChoiceState 11 (fun _ => "a") (fun _ => " v ")) =
        canonicalChoiceState 11 (fun _ => "a") (fun _ => " v "))
    ∧ (∀ i : Nat, numericSuffix (choiceBlockId i) = i) :=
  claim_C10_choice_block_ordering 11 (fun _ => "a") (fun _ => " v ")
    (fun _ => by show " v " ≠ ""; decide)

end PollSlack

